import Mathlib

/-!
# Shallow embedding of the notion-to-wiki pipeline

Definitions translated from the repository sources:
`utils/main.py`, `utils/markdown_converter.py`, `utils/link_processor.py`,
`utils/notion_client.py`.  Remote API payloads are modelled by finite
association lists (one per endpoint of `NotionDownloader`), Python dicts by
association lists with in-place update, and Python `None` by `Option`.
Recursive procedures of the source are given explicit fuel; a `none` result
of a fuelled function means the fuel ran out, i.e. the corresponding Python
recursion has not returned within that depth.
-/

set_option linter.unusedVariables false

namespace NotionToWiki

/-! ## Python dict and truthiness primitives -/

/-- `d.get(k)` / `d[k]` on a dict modelled as an association list. -/
def lookupL {K V : Type} [DecidableEq K] (k : K) : List (K × V) → Option V
  | [] => none
  | (k2, v) :: rest => if k2 = k then some v else lookupL k rest

/-- `d[k] = v`: replace in place when the key exists, append otherwise
(Python dicts keep first-insertion order). -/
def setItem {K V : Type} [DecidableEq K] (k : K) (v : V) : List (K × V) → List (K × V)
  | [] => [(k, v)]
  | (k2, v2) :: rest => if k2 = k then (k, v) :: rest else (k2, v2) :: setItem k v rest

def keysOf {K V : Type} (l : List (K × V)) : List K := l.map Prod.fst

/-- Python truthiness of an optional string: `None` and `""` are falsy. -/
def pyTruthy : Option String → Bool
  | none => false
  | some s => !s.isEmpty

/-! ## `link_processor.update_markdown_links`

The two `re.sub` calls of the source are modelled by a character scanner
that reproduces the semantics of the patterns

  pattern 1: `\[(.*?)\]\((?:https:\/\/www\.notion\.so\/([a-f0-9]{32})|([a-f0-9]{8}-[a-f0-9]{4}-[a-f0-9]{4}-[a-f0-9]{4}-[a-f0-9]{12}))\)`
  pattern 2: `\[(.*?)\]\(([a-f0-9]{8}-[a-f0-9]{4}-[a-f0-9]{4}-[a-f0-9]{4}-[a-f0-9]{12})\)`

with Python `re` behaviour: leftmost scanning, a lazy (shortest-first) link
text that cannot cross a newline, and continuation after the end of each
match.  `replaceMatch` is the replacement function of the source: on a
registered id the target becomes `slug.md`, otherwise `match.group(0)` is
returned unchanged. -/

def isHexDigit (c : Char) : Bool := ('a' ≤ c && c ≤ 'f') || ('0' ≤ c && c ≤ '9')

def notionHost : List Char :=
  'h' :: 't' :: 't' :: 'p' :: 's' :: ':' :: '/' :: '/' :: 'w' :: 'w' :: 'w' :: '.' ::
    'n' :: 'o' :: 't' :: 'i' :: 'o' :: 'n' :: '.' :: 's' :: 'o' :: '/' :: []

/-- `[a-f0-9]{n}`: exactly `n` hex characters. -/
def takeHex : Nat → List Char → Option (List Char × List Char)
  | 0, s => some ([], s)
  | _ + 1, [] => none
  | n + 1, c :: s =>
    if isHexDigit c then
      match takeHex n s with
      | some (o, r) => some (c :: o, r)
      | none => none
    else none

/-- Match a literal character sequence. -/
def dropLit : List Char → List Char → Option (List Char)
  | [], s => some s
  | _ :: _, [] => none
  | p :: ps, c :: s => if c = p then dropLit ps s else none

/-- One matched link target: the exact matched characters (for
`match.group(0)` reconstruction) and the hyphen-stripped id used for the
registry lookup. -/
structure MatchTarget where
  orig : List Char
  idChars : List Char
deriving DecidableEq

/-- The full-URL alternative `https://www.notion.so/([a-f0-9]{32})`. -/
def parseUrlTarget (s : List Char) : Option (MatchTarget × List Char) :=
  match dropLit notionHost s with
  | none => none
  | some r =>
    match takeHex 32 r with
    | none => none
    | some (hex, r2) => some ({ orig := notionHost ++ hex, idChars := hex }, r2)

def expectDash : List Char → Option (List Char)
  | [] => none
  | c :: s => if c = '-' then some s else none

/-- The dashed alternative `[a-f0-9]{8}-[a-f0-9]{4}-[a-f0-9]{4}-[a-f0-9]{4}-[a-f0-9]{12}`;
`idChars` is the id with hyphens stripped, as in `target_id_dash.replace('-','')`. -/
def parseDashedTarget (s : List Char) : Option (MatchTarget × List Char) :=
  match takeHex 8 s with
  | none => none
  | some (a, s1) =>
    match expectDash s1 with
    | none => none
    | some s2 =>
      match takeHex 4 s2 with
      | none => none
      | some (b, s3) =>
        match expectDash s3 with
        | none => none
        | some s4 =>
          match takeHex 4 s4 with
          | none => none
          | some (c, s5) =>
            match expectDash s5 with
            | none => none
            | some s6 =>
              match takeHex 4 s6 with
              | none => none
              | some (d, s7) =>
                match expectDash s7 with
                | none => none
                | some s8 =>
                  match takeHex 12 s8 with
                  | none => none
                  | some (e, s9) =>
                    some ({ orig := a ++ '-' :: b ++ '-' :: c ++ '-' :: d ++ '-' :: e,
                            idChars := a ++ b ++ c ++ d ++ e }, s9)

/-- Pattern 1 accepts both alternatives (URL tried first, as in the regex
alternation); pattern 2 accepts only the dashed form. -/
inductive PatMode | both | dashedOnly
deriving DecidableEq

def parseTarget : PatMode → List Char → Option (MatchTarget × List Char)
  | .both, s =>
    match parseUrlTarget s with
    | some r => some r
    | none => parseDashedTarget s
  | .dashedOnly, s => parseDashedTarget s

/-- `\]\((target)\)` at the current position. -/
def parseClose (m : PatMode) (s : List Char) : Option (MatchTarget × List Char) :=
  match s with
  | c1 :: c2 :: rest =>
    if c1 = ']' ∧ c2 = '(' then
      match parseTarget m rest with
      | some (t, r) =>
        match r with
        | c3 :: r2 => if c3 = ')' then some (t, r2) else none
        | [] => none
      | none => none
    else none
  | _ => none

/-- Lazy search for the end of the link text: at each position first try
`\]\((target)\)` (shortest text wins), otherwise consume one more text
character; `.` of the regex does not match a newline. -/
def findText (m : PatMode) : List Char → List Char → Option (List Char × MatchTarget × List Char)
  | _, [] => none
  | pre, c :: cs =>
    match parseClose m (c :: cs) with
    | some (t, rest) => some (pre.reverse, t, rest)
    | none => if c = '\n' then none else findText m (c :: pre) cs

inductive EntryKind | page | database
deriving DecidableEq

/-- One entry of `processed_items` as consumed by the link processor. -/
structure ProcessedItem where
  kind : EntryKind
  slug : List Char
deriving DecidableEq

abbrev LinkRegistry := List (List Char × ProcessedItem)

def mdSuffix : List Char := '.' :: 'm' :: 'd' :: []

/-- The replacement callback: registered ids are rewritten to
`[text](slug.md)` (identically for pages and databases in the modular
source), unregistered ids return the whole match unchanged. -/
def replaceMatch (reg : LinkRegistry) (text : List Char) (t : MatchTarget) : List Char :=
  match lookupL t.idChars reg with
  | some item =>
    match item.kind with
    | .page => '[' :: text ++ ']' :: '(' :: (item.slug ++ mdSuffix) ++ ')' :: []
    | .database => '[' :: text ++ ']' :: '(' :: (item.slug ++ mdSuffix) ++ ')' :: []
  | none => '[' :: text ++ ']' :: '(' :: t.orig ++ ')' :: []

/-- `re.sub`: scan left to right, replace each non-overlapping match,
continue after its end.  `fuel ≥ length of the input` always suffices. -/
def subScan (m : PatMode) (reg : LinkRegistry) : Nat → List Char → List Char
  | 0, s => s
  | _ + 1, [] => []
  | fuel + 1, c :: cs =>
    if c = '[' then
      match findText m [] cs with
      | some (text, t, rest) => replaceMatch reg text t ++ subScan m reg fuel rest
      | none => c :: subScan m reg fuel cs
    else c :: subScan m reg fuel cs

def scanR (m : PatMode) (reg : LinkRegistry) (s : List Char) : List Char :=
  subScan m reg s.length s

/-- `update_markdown_links` on file content: pattern 1 then pattern 2,
exactly as the two sequential `re.sub` calls of the source (the file
read/write wrapper is out of scope). -/
def update_markdown_links (reg : LinkRegistry) (content : List Char) : List Char :=
  scanR .dashedOnly reg (scanR .both reg content)

/-! ## Shared data model

Entities and payloads as the pipeline consumes them.  Rich-text arrays are
modelled by their list of `plain_text` runs; every downloader endpoint is a
finite association list, `none` standing for both "not found" and a
transport failure (the source catches both and returns `None`). -/

/-- One entry of `collected_items` / the `info` part of an `all_data` entry. -/
structure ItemInfo where
  kind : EntryKind
  id : String
  title : String
  parent : Option String
deriving DecidableEq

/-- One entry of `all_records` (a database row as accumulated in phase 2):
title, owning database title/id and the row's own child blocks (only their
presence matters to the claims, so blocks are unit stubs). -/
structure RecordInfo where
  title : String
  database_title : String
  database_id : String
  blocks : List Unit
deriving DecidableEq

/-- A property definition in a database schema (`database_data['properties']`):
the converter dispatches on `type == 'title'`, the collector on
`type == 'relation'` with its `relation.database_id`. -/
inductive PropDefKind
  | titleDef
  | relationDef (databaseId : Option String)
  | otherDef
deriving DecidableEq

/-- `databases.retrieve` payload: the `title` rich-text runs and the schema. -/
structure DatabaseData where
  titleRuns : List String
  properties : List (String × PropDefKind)
deriving DecidableEq

/-- `pages.retrieve` payload: the `properties.title.title` rich-text runs. -/
structure PageData where
  titleRuns : List String
deriving DecidableEq

/-- One entry of a `blocks.children.list` result. -/
structure ChildRef where
  id : String
  hasChildren : Bool
deriving DecidableEq

/-- A `blocks.retrieve` payload, reduced to what the collector reads:
its `type` tag and the title stored under it. -/
inductive BlockKind
  | childPage (title : String)
  | childDatabase (title : String)
  | otherBlock
deriving DecidableEq

/-- The `number` field of a number property value: the key can be missing
(`get('number','')` yields `''`), present as JSON null (`None`), or a value. -/
inductive NumberField
  | absent
  | null
  | val (n : Int)
deriving DecidableEq

/-- A property value of a database row, one constructor per `type` tag the
converter dispatches on; `otherV` carries the stringified first nested value
of an unrecognized type (`None` rendered as empty). -/
inductive CellValue
  | titleV (runs : List String)
  | richText (runs : List String)
  | number (v : NumberField)
  | selectV (name : Option String)
  | multiSelect (names : List String)
  | dateV (start : Option String)
  | relation (ids : List String)
  | checkbox (b : Bool)
  | url (s : String)
  | email (s : String)
  | phoneNumber (s : String)
  | createdTime (s : String)
  | lastEditedTime (s : String)
  | createdBy (name : Option String)
  | lastEditedBy (name : Option String)
  | otherV (firstVal : Option String)
deriving DecidableEq

/-- One row of a `databases.query` result. -/
structure RowData where
  id : Option String
  properties : List (String × CellValue)
deriving DecidableEq

/-- The remote API as `NotionDownloader` consumes it, one finite map per
endpoint. -/
structure Downloader where
  blocks : List (String × BlockKind)
  pageBlocks : List (String × List ChildRef)
  pages : List (String × PageData)
  databases : List (String × DatabaseData)
  queries : List (String × List RowData)
deriving DecidableEq

def download_block (dl : Downloader) (id : String) : Option BlockKind :=
  lookupL id dl.blocks

def download_page_blocks (dl : Downloader) (id : String) : Option (List ChildRef) :=
  lookupL id dl.pageBlocks

def download_page_data (dl : Downloader) (id : String) : Option PageData :=
  lookupL id dl.pages

def download_database_data (dl : Downloader) (id : String) : Option DatabaseData :=
  lookupL id dl.databases

def download_database_query (dl : Downloader) (id : String) : Option (List RowData) :=
  lookupL id dl.queries

/-! ## `markdown_converter`

`slugify` is a third-party library function, passed as a parameter `slugf`
throughout (the claims only depend on it being applied consistently). -/

/-- Database title: concatenation of all `plain_text` runs, with the
`Untitled Database` fallbacks of the source. -/
def dbTitleOf (runs : List String) : String :=
  let t := if runs.isEmpty then "Untitled Database" else String.join runs
  if t.trim.isEmpty then "Untitled Database" else t

/-- Page title with the `Untitled` fallbacks of `convert_page_to_markdown`. -/
def pageTitleOf (runs : List String) : String :=
  let t := if runs.isEmpty then "Untitled" else String.join runs
  if t.trim.isEmpty then "Untitled" else t

/-- `convert_page_to_markdown` (pure part): the `(slug, title)` return value;
writing the rendered blocks to `output_dir` is file I/O and out of scope. -/
def convert_page_to_markdown (slugf : String → String) (page_data : PageData)
    (blocks : List Unit) (output_dir : String) : String × String :=
  let title := pageTitleOf page_data.titleRuns
  (slugf title, title)

def startsWithL : List Char → List Char → Bool
  | [], _ => true
  | _ :: _, [] => false
  | p :: ps, c :: cs => p = c && startsWithL ps cs

/-- Occurrence of `pat` as a contiguous run: Python `pat in s`. -/
def containsRun (pat : List Char) : List Char → Bool
  | [] => startsWithL pat []
  | c :: cs => startsWithL pat (c :: cs) || containsRun pat cs

def strContains (hay pat : String) : Bool := containsRun pat.toList hay.toList

/-- Split the schema columns: the (last) title-typed column and the others
in declaration order. -/
def splitTitleColumn (props : List (String × PropDefKind)) : Option String × List String :=
  props.foldl
    (fun acc p =>
      match p.2 with
      | .titleDef => (some p.1, acc.2)
      | _ => (acc.1, acc.2 ++ [p.1]))
    (none, [])

def desiredTrackCols : List String := ["Schermata", "Evento di navigazione", "AA Events"]

/-- Column selection of `convert_database_to_markdown`, including the
name-based `Tracciamenti` override. -/
def columnsFor (ddTitle : String) (props : List (String × PropDefKind)) : List String :=
  let allCols := props.map Prod.fst
  let split := splitTitleColumn props
  if strContains ddTitle "Tracciamenti" then
    (match split.1 with
     | some t => [t]
     | none => []) ++ desiredTrackCols.filter (fun d => allCols.contains d)
  else
    match split.1 with
    | some t => t :: split.2
    | none => allCols

/-- Resolution of one relation target id in the modular converter: the
`all_data` map, then the `all_records` map, then the inline
`[ID: {related_id[:8]}...]` fallback.  No remote call occurs in this path. -/
def resolveRelationTarget (slugf : String → String) (all_data : List (String × ItemInfo))
    (all_records : List (String × RecordInfo)) (rid : String) : String :=
  match lookupL rid all_data with
  | some info =>
    match info.kind with
    | .page => "[" ++ info.title ++ "](" ++ slugf info.title ++ ".md)"
    | .database => "[" ++ info.title ++ "](" ++ slugf info.title ++ ".md)"
  | none =>
    match lookupL rid all_records with
    | some ri =>
      "[" ++ ri.title ++ "](" ++ slugf ri.database_title ++ "/" ++ slugf ri.title ++ ".md)"
    | none => "[ID: " ++ rid.take 8 ++ "...]"

/-- The converter context threaded into each cell: the converted database's
own title and the two resolver maps. -/
structure ConvCtx where
  dbTitle : String
  all_data : List (String × ItemInfo)
  all_records : List (String × RecordInfo)
deriving DecidableEq

/-- One table cell, dispatched on the property `type` tag exactly as the
row loop of `convert_database_to_markdown`. -/
def renderCell (slugf : String → String) (ctx : ConvCtx) (rowId : Option String) :
    CellValue → String
  | .titleV runs =>
    let titleText := String.join runs
    (match rowId with
     | none => titleText
     | some rid =>
       if rid.isEmpty then titleText
       else
         match lookupL rid ctx.all_records with
         | none => titleText
         | some ri =>
           if ri.blocks.isEmpty then titleText
           else
             let dbSlug := slugf ctx.dbTitle
             let recSlug := if titleText.isEmpty then "untitled-record" else slugf titleText
             "[" ++ titleText ++ "](" ++ dbSlug ++ "/" ++ recSlug ++ ".md)")
  | .richText runs => String.join runs
  | .number v =>
    (match v with
     | .absent => ""
     | .null => "None"
     | .val n => toString n)
  | .selectV name =>
    (match name with
     | some n => n
     | none => "")
  | .multiSelect names => String.intercalate ", " names
  | .dateV start =>
    (match start with
     | some s => s
     | none => "")
  | .relation ids =>
    String.intercalate ", " (ids.map (resolveRelationTarget slugf ctx.all_data ctx.all_records))
  | .checkbox b => if b then "X" else ""
  | .url s => s
  | .email s => s
  | .phoneNumber s => s
  | .createdTime s => s
  | .lastEditedTime s => s
  | .createdBy name =>
    (match name with
     | some n => n
     | none => "")
  | .lastEditedBy name =>
    (match name with
     | some n => n
     | none => "")
  | .otherV v =>
    (match v with
     | some s => s
     | none => "")

/-- One cell looked up by column name; a property value absent from the row
renders as an empty cell. -/
def renderRowCell (slugf : String → String) (ctx : ConvCtx) (row : RowData)
    (column : String) : String :=
  match lookupL column row.properties with
  | some pv => renderCell slugf ctx row.id pv
  | none => ""

def rowLine (slugf : String → String) (ctx : ConvCtx) (columns : List String)
    (row : RowData) : String :=
  "| " ++ String.intercalate " | " (columns.map (renderRowCell slugf ctx row)) ++ " |\n"

/-- `convert_database_to_markdown` (pure part): returns
`(slug, title, file content)`; only the final file write is elided.  The
`downloader` parameter mirrors the source signature — the modular converter
never calls it.  An empty `results` list also covers the falsy `None`. -/
def convert_database_to_markdown (slugf : String → String) (dd : DatabaseData)
    (results : List RowData) (all_data : List (String × ItemInfo))
    (all_records : List (String × RecordInfo)) (downloader : Downloader)
    (output_dir : String) : String × String × String :=
  let title := dbTitleOf dd.titleRuns
  let slug := slugf title
  let ctx : ConvCtx := ⟨title, all_data, all_records⟩
  let content :=
    "# " ++ title ++ "\n\n" ++
      (if results.isEmpty then ""
       else
         let columns := columnsFor title dd.properties
         "| " ++ String.intercalate " | " columns ++ " |\n" ++
           "| " ++ String.intercalate " | " (columns.map (fun _ => "---")) ++ " |\n" ++
           String.join (results.map (rowLine slugf ctx columns)))
  (slug, title, content)

/-! ## `main.create_reverse_reference_table` -/

structure RevRef where
  source_record_id : String
  source_database_title : String
  source_record_title : String
  property_name : String
deriving DecidableEq

/-- First-seen order of the source database titles (Python dict grouping). -/
def dedupKeysRR (refs : List RevRef) : List String :=
  refs.foldl
    (fun acc r =>
      if acc.contains r.source_database_title then acc else acc ++ [r.source_database_title])
    []

/-- The title-based search for the source record
(`for record_info in all_records.values(): if title and database_title match: break`). -/
def findSourceRecord (all_records : List (String × RecordInfo)) (srcTitle dbTitle : String) :
    Option RecordInfo :=
  (all_records.map Prod.snd).find?
    (fun ri => (ri.title == srcTitle) && (ri.database_title == dbTitle))

/-- One `| link | property |` row of a reverse-reference table: link to the
record's own subpage when it has blocks, to the database table otherwise. -/
def revRefRow (slugf : String → String) (all_records : List (String × RecordInfo))
    (database_paths : List (String × String)) (dbTitle : String) (r : RevRef) : String :=
  let found := findSourceRecord all_records r.source_record_title dbTitle
  let sdbId : Option String :=
    match found with
    | some ri => some ri.database_id
    | none => none
  let hasBlocks : Bool :=
    match found with
    | some ri => !ri.blocks.isEmpty
    | none => false
  let sdbPath : String :=
    match sdbId with
    | some i =>
      if i.isEmpty then slugf dbTitle
      else
        match lookupL i database_paths with
        | some p => p
        | none => slugf dbTitle
    | none => slugf dbTitle
  let link :=
    if hasBlocks then
      "[" ++ r.source_record_title ++ "](../" ++ sdbPath ++ "/" ++
        slugf r.source_record_title ++ ".md)"
    else
      "[" ++ r.source_record_title ++ "](../" ++ sdbPath ++ ".md)"
  "| " ++ link ++ " | " ++ r.property_name ++ " |\n"

def revRefSection (slugf : String → String) (all_records : List (String × RecordInfo))
    (database_paths : List (String × String)) (refs : List RevRef) (dbTitle : String) : String :=
  "\n## Referenced by " ++ dbTitle ++ "\n\n" ++
    "| Record | Property |\n" ++ "|--------|----------|\n" ++
    String.join
      ((refs.filter (fun r => r.source_database_title == dbTitle)).map
        (revRefRow slugf all_records database_paths dbTitle)) ++
    "\n"

def create_reverse_reference_table (slugf : String → String) (record_id : String)
    (reverse_refs : List (String × List RevRef)) (all_records : List (String × RecordInfo))
    (database_paths : List (String × String)) : String :=
  match lookupL record_id reverse_refs with
  | none => ""
  | some refs =>
    if refs.isEmpty then ""
    else
      String.join
        ((dedupKeysRR refs).map (revRefSection slugf all_records database_paths refs))

/-- Second definition for the refinement claim about reference resolution,
following the words of spec §4.4: entity map, then row map (content-bearing
rows link to their page, content-less rows to the table), then a single-item
remote fetch as a page and then as a collection, then a placeholder
containing the raw id. -/
def specResolveReference (slugf : String → String) (all_data : List (String × ItemInfo))
    (all_records : List (String × RecordInfo)) (remotePage : String → Option String)
    (remoteDatabase : String → Option String) (rid : String) : String :=
  match lookupL rid all_data with
  | some info => "[" ++ info.title ++ "](" ++ slugf info.title ++ ".md)"
  | none =>
    match lookupL rid all_records with
    | some ri =>
      if ri.blocks.isEmpty then
        "[" ++ ri.title ++ "](" ++ slugf ri.database_title ++ ".md)"
      else
        "[" ++ ri.title ++ "](" ++ slugf ri.database_title ++ "/" ++ slugf ri.title ++ ".md)"
    | none =>
      match remotePage rid with
      | some t => "[" ++ t ++ "](" ++ slugf t ++ ".md)"
      | none =>
        match remoteDatabase rid with
        | some t => "[" ++ t ++ "](" ++ slugf t ++ ".md)"
        | none => "[Unresolved: " ++ rid ++ "]"

/-! ## Phase 1: `main` collection

`collect_related_databases` re-downloads the related database before
recursing; with the cache that lookup returns the same payload, so the
recursion is inlined on the already fetched `rdb`.  Fuel is charged one unit
per processed property; `none` means the fuel ran out. -/

/-- Title extraction of `collect_related_databases`
(`.get("title", [{}])[0].get("plain_text", "Untitled Database")`): the first
run only, with the default for a missing title. -/
def relatedTitleOf (rdb : DatabaseData) : String :=
  match rdb.titleRuns with
  | [] => "Untitled Database"
  | t :: _ => t

abbrev CollectReg := List (String × ItemInfo)

/-- The property loop of `collect_related_databases`: for each
relation-typed property whose target database id is truthy, absent from the
registry and downloadable, register it (kind `database`, no parent) and
recurse into its own properties before continuing with the remaining
properties. -/
def collectRelProps (dl : Downloader) : Nat → List (String × PropDefKind) → CollectReg →
    Option CollectReg
  | _, [], reg => some reg
  | 0, _ :: _, _ => none
  | fuel + 1, (_, pd) :: rest, reg =>
    match pd with
    | .relationDef (some rid) =>
      if rid.isEmpty then collectRelProps dl fuel rest reg
      else if (lookupL rid reg).isSome then collectRelProps dl fuel rest reg
      else
        match download_database_data dl rid with
        | none => collectRelProps dl fuel rest reg
        | some rdb =>
          let reg2 := setItem rid ⟨.database, rid, relatedTitleOf rdb, none⟩ reg
          match collectRelProps dl fuel rdb.properties reg2 with
          | none => none
          | some reg3 => collectRelProps dl fuel rest reg3
    | _ => collectRelProps dl fuel rest reg

def collect_related_databases (dl : Downloader) (fuel : Nat) (database_id : String)
    (reg : CollectReg) : Option CollectReg :=
  match download_database_data dl database_id with
  | none => some reg
  | some dbData => collectRelProps dl fuel dbData.properties reg

/-- The parent backfill of `collect_page_or_database_info`: set the parent
only when the new one is truthy and the stored one is falsy. -/
def backfillParent (existing : ItemInfo) (parent : Option String) : ItemInfo :=
  if pyTruthy parent && !(pyTruthy existing.parent) then
    { existing with parent := parent }
  else existing

/-- `collect_page_or_database_info`: early return (with backfill) for a
registered id; otherwise fetch the block, register a child page directly,
and register a child database after collecting its related databases.  The
result pairs the Python return value with the updated registry. -/
def collect_page_or_database_info (dl : Downloader) (fuel : Nat) (block_id : String)
    (reg : CollectReg) (parent : Option String) : Option (Option ItemInfo × CollectReg) :=
  match lookupL block_id reg with
  | some existing =>
    let existing2 := backfillParent existing parent
    some (some existing2, setItem block_id existing2 reg)
  | none =>
    match download_block dl block_id with
    | none => some (none, reg)
    | some bk =>
      match bk with
      | .childPage title =>
        let info : ItemInfo := ⟨.page, block_id, title, parent⟩
        some (some info, setItem block_id info reg)
      | .childDatabase title =>
        let info : ItemInfo := ⟨.database, block_id, title, parent⟩
        match collect_related_databases dl fuel block_id reg with
        | none => none
        | some reg2 => some (some info, setItem block_id info reg2)
      | .otherBlock => some (none, reg)

/-- The two mutually recursive shapes of `recursively_collect_items`: the
function body and its `for block in blocks` loop. -/
inductive RecCall
  | items (parentId : String)
  | loop (blocks : List ChildRef) (parentId : String)
deriving DecidableEq

/-- `recursively_collect_items`: register the parent block itself when
absent (with `parent_id=None`), then walk its child blocks, registering each
and recursing where `has_children` is set — unconditionally, with no
registry membership check before the recursive call. -/
def recCollect (dl : Downloader) : Nat → RecCall → CollectReg → Option CollectReg
  | 0, _, _ => none
  | fuel + 1, .items pid, reg =>
    let step1 : Option CollectReg :=
      if (lookupL pid reg).isSome then some reg
      else
        match collect_page_or_database_info dl fuel pid reg none with
        | none => none
        | some (pinfo, reg1) =>
          match pinfo with
          | some info => some (setItem info.id info reg1)
          | none => some reg1
    match step1 with
    | none => none
    | some reg1 =>
      match download_page_blocks dl pid with
      | none => some reg1
      | some blocks =>
        if blocks.isEmpty then some reg1
        else recCollect dl fuel (.loop blocks pid) reg1
  | _ + 1, .loop [] _, reg => some reg
  | fuel + 1, .loop (b :: rest) pid, reg =>
    match collect_page_or_database_info dl fuel b.id reg (some pid) with
    | none => none
    | some (found, reg1) =>
      let reg2 :=
        match found with
        | some info => setItem info.id info reg1
        | none => reg1
      match (if b.hasChildren then recCollect dl fuel (.items b.id) reg2 else some reg2) with
      | none => none
      | some reg3 => recCollect dl fuel (.loop rest pid) reg3

def recursively_collect_items (dl : Downloader) (fuel : Nat) (parent_block_id : String)
    (reg : CollectReg) : Option CollectReg :=
  recCollect dl fuel (.items parent_block_id) reg

/-! ## `main.build_item_path` -/

/-- The `while current_id and current_id in collected_items` loop of
`build_item_path`, collecting slugs front-first as `path_parts.insert(0, …)`
does.  At fuel 0 the result is `none` exactly when the loop would continue. -/
def pathLoop (slugf : String → String) (reg : CollectReg) (root : String) :
    Nat → Option String → List String → Option (List String)
  | 0, cur, acc =>
    (match cur with
     | none => some acc
     | some c =>
       if c.isEmpty then some acc
       else if (lookupL c reg).isSome then none else some acc)
  | fuel + 1, cur, acc =>
    match cur with
    | none => some acc
    | some c =>
      if c.isEmpty then some acc
      else
        match lookupL c reg with
        | none => some acc
        | some it =>
          let acc2 :=
            if pyTruthy it.parent ∨ c ≠ root then
              (if c ≠ root then slugf it.title :: acc else acc)
            else acc
          pathLoop slugf reg root fuel it.parent acc2

/-- The id the walk starts from: the item's parent when the item is
registered, the item itself otherwise (lines 144–147 of the source). -/
def startCur (item_id : String) (reg : CollectReg) : Option String :=
  match lookupL item_id reg with
  | some it => it.parent
  | none => some item_id

/-- `build_item_path`: empty for the root; otherwise start from the item's
parent (the item itself when unregistered, as in the source) and join the
collected slugs. -/
def build_item_path (slugf : String → String) (fuel : Nat) (item_id : String)
    (reg : CollectReg) (root : String) : Option String :=
  if item_id = root then some ""
  else (pathLoop slugf reg root fuel (startCur item_id reg) []).map (String.intercalate "/")

/-- The ancestor ids the walk of `build_item_path` visits, in visit order
(nearest ancestor first), under the same stopping conditions. -/
def ancestorChain (reg : CollectReg) : Nat → Option String → Option (List String)
  | 0, cur =>
    (match cur with
     | none => some []
     | some c =>
       if c.isEmpty then some []
       else if (lookupL c reg).isSome then none else some [])
  | fuel + 1, cur =>
    match cur with
    | none => some []
    | some c =>
      if c.isEmpty then some []
      else
        match lookupL c reg with
        | none => some []
        | some it =>
          match ancestorChain reg fuel it.parent with
          | none => none
          | some l => some (c :: l)

/-- The slug an id contributes: the slugified stored title. -/
def titleSlugOf (slugf : String → String) (reg : CollectReg) (c : String) : String :=
  match lookupL c reg with
  | some it => slugf it.title
  | none => ""

/-! ## The run model: phases 2–3 of `main` and the top-level handlers

`convert_page_to_markdown` is defined with 3 parameters and called in
phase 3 with 5 positional arguments (`main.py` lines 347–353);
`convert_database_to_markdown` is defined with 6 and called with 7
(lines 363–371).  Python raises `TypeError` on such a call before the body
runs; the only handler is the top-level `except Exception`, which prints and
calls `sys.exit(1)`. -/

def convert_page_param_count : Nat := 3

def convert_page_arg_count : Nat := 5

def convert_database_param_count : Nat := 6

def convert_database_arg_count : Nat := 7

inductive PyError | typeError
deriving DecidableEq

/-- Calling a Python function that has only positional parameters and no
defaults or varargs: an argument-count mismatch raises `TypeError` before
the body runs. -/
def pyCall {α : Type} (paramCount argCount : Nat) (body : Unit → α) : Except PyError α :=
  if argCount = paramCount then .ok (body ()) else .error .typeError

/-- Phase 3 conversion loop over `all_data`: each entity is converted by a
call whose declared parameter count and positional argument count are those
of the source; an uncaught error aborts the loop, carrying the entities
rendered so far. -/
def phase3 : List (String × EntryKind) → List String → Except (List String × PyError) (List String)
  | [], rendered => .ok rendered
  | (id, k) :: rest, rendered =>
    let call : Except PyError String :=
      match k with
      | .page => pyCall convert_page_param_count convert_page_arg_count (fun _ => id)
      | .database => pyCall convert_database_param_count convert_database_arg_count (fun _ => id)
    match call with
    | .error e => .error (rendered, e)
    | .ok r => phase3 rest (rendered ++ [r])

/-- The observable outcome of a run: `configFailure` is the
`ConfigurationError` handler (exit 1 before the downloader exists, hence
before any fetch); `aborted p ids rendered` is `sys.exit(1)` from the
top-level handler during phase `p`, after `ids` were materialized and
`rendered` converted; `completed` stands for a run that got past phase 3. -/
inductive RunOutcome
  | configFailure
  | aborted (phase : Nat) (allDataIds : List String) (rendered : List String)
  | completed (rendered : List String)
deriving DecidableEq

def exitCodeOf : RunOutcome → Nat
  | .completed _ => 0
  | _ => 1

/-- Phase 2: per entity, fetch the full payload; a failed fetch (`None`)
skips that entity — it is absent from `all_data` — and the loop continues
with the rest. -/
def phase2 (dl : Downloader) (reg : CollectReg) : List (String × EntryKind) :=
  reg.filterMap
    (fun e =>
      match e.2.kind with
      | .page =>
        match download_page_data dl e.1 with
        | some _ => some (e.1, EntryKind.page)
        | none => none
      | .database =>
        match download_database_data dl e.1 with
        | some _ => some (e.1, EntryKind.database)
        | none => none)

def finishRun (allData : List (String × EntryKind)) : RunOutcome :=
  match phase3 allData [] with
  | .error (rendered, _) => .aborted 3 (allData.map Prod.fst) rendered
  | .ok rendered => .completed rendered

/-- The run: configuration, collection (phase 1), materialization
(phase 2), conversion (phase 3).  `none` is fuel exhaustion of the
collection recursion. -/
def mainRun (config : Option (String × String)) (dl : Downloader) (fuel : Nat) :
    Option RunOutcome :=
  match config with
  | none => some .configFailure
  | some cfg =>
    match recursively_collect_items dl fuel cfg.2 [] with
    | none => none
    | some reg => some (finishRun (phase2 dl reg))

/-! ## Auxiliary notions used by the statements -/

/-- A well-formed raw identifier as the two link patterns recognize it. -/
inductive TargetForm
  | url (hex : List Char)
  | dashed (a b c d e : List Char)
deriving DecidableEq

def TargetForm.render : TargetForm → List Char
  | .url hex => notionHost ++ hex
  | .dashed a b c d e => a ++ '-' :: b ++ '-' :: c ++ '-' :: d ++ '-' :: e

def TargetForm.strippedId : TargetForm → List Char
  | .url hex => hex
  | .dashed a b c d e => a ++ b ++ c ++ d ++ e

def allHex (l : List Char) : Bool := l.all isHexDigit

/-- Characters a dashed id consists of. -/
def dashChar (c : Char) : Bool := isHexDigit c || c == '-'

/-- The match data a well-formed raw target parses to. -/
def tgOf (tf : TargetForm) : MatchTarget := ⟨tf.render, tf.strippedId⟩

def TargetForm.wf : TargetForm → Bool
  | .url hex => (hex.length == 32) && allHex hex
  | .dashed a b c d e =>
    (a.length == 8) && (b.length == 4) && (c.length == 4) && (d.length == 4) &&
      (e.length == 12) && allHex a && allHex b && allHex c && allHex d && allHex e

/-- What the rewriter turns a well-formed raw target into: the registered
slug plus `.md`, or the original characters when the id is unregistered. -/
def newTarget (reg : LinkRegistry) (tf : TargetForm) : List Char :=
  match lookupL tf.strippedId reg with
  | some item => item.slug ++ mdSuffix
  | none => tf.render

/-- No `[` (such text is copied verbatim by the scanner). -/
def noLB (s : List Char) : Bool := s.all (fun c => c != '[')

/-- Neither bracket. -/
def bracketFreeB (s : List Char) : Bool := s.all (fun c => c != '[' && c != ']')

/-- Safe link text: no brackets and no newline (the lazy `.` cannot cross one). -/
def textSafeB (s : List Char) : Bool := s.all (fun c => c != '[' && c != ']' && c != '\n')

/-- The characters `python-slugify` emits: lowercase ASCII letters, digits,
hyphens. -/
def slugChar (c : Char) : Bool :=
  (('a' ≤ c) && (c ≤ 'z')) || (('0' ≤ c) && (c ≤ '9')) || (c == '-')

def slugOkB (s : List Char) : Bool := s.all slugChar

/-- Some position of `s` carries a pattern-recognizable raw target whose id
is in the registry (scanning every suffix with pattern 1, which subsumes the
dashed-only pattern 2). -/
def hasRegTarget (reg : LinkRegistry) : List Char → Bool
  | [] => false
  | c :: cs =>
    (match parseClose .both (c :: cs) with
     | some (tg, _) => (lookupL tg.idChars reg).isSome
     | none => false) || hasRegTarget reg cs

/-- Database ids known to the remote oracle but not yet registered: the
termination measure of the related-database recursion. -/
def missingCount (dl : Downloader) (reg : CollectReg) : Nat :=
  ((dl.databases.map Prod.fst).filter (fun i => (lookupL i reg).isNone)).length

/-- Divergence of the tree traversal on a fixed input: no amount of fuel
makes the recursion return. -/
def treeCollectDiverges (dl : Downloader) (root : String) : Prop :=
  ∀ fuel : Nat, recursively_collect_items dl fuel root [] = none

/-- Concrete stand-in for `slugify` on titles that are already slug-shaped
(lowercase ASCII), where `slugify` is the identity. -/
def slugIdFn : String → String := fun s => s

/-! ## Concrete inputs for the counterexamples and witnesses -/

/-- A workspace whose root page has two child pages; the page payload fetch
for `p1` fails (the oracle has no entry), the others succeed. -/
def dlC2 : Downloader :=
  { blocks :=
      [("r", .childPage "Root"), ("p1", .childPage "PageOne"), ("p2", .childPage "PageTwo")],
    pageBlocks := [("r", [⟨"p1", false⟩, ⟨"p2", false⟩])],
    pages := [("r", ⟨["Root"]⟩), ("p2", ⟨["PageTwo"]⟩)],
    databases := [],
    queries := [] }

def regC2 : CollectReg :=
  [("r", ⟨.page, "r", "Root", none⟩),
   ("p1", ⟨.page, "p1", "PageOne", some "r"⟩),
   ("p2", ⟨.page, "p2", "PageTwo", some "r"⟩)]

/-- A 32-character id that is in no local map but which the remote page
endpoint could resolve. -/
def ridC3 : String := "abcdefabcdefabcdefabcdefabcdefab"

def remotePageC3 : String → Option String := fun i => if i = ridC3 then some "remote-page" else none

def remoteNoneFn : String → Option String := fun _ => none

/-- A row map holding one content-less row (`blocks` empty) of database `c`. -/
def recsC4 : List (String × RecordInfo) := [("r1", ⟨"beta", "c", "cid", []⟩)]

/-- A child database `a` whose own schema has a relation pointing back at
`a`; the block payload titles it `X`, the database payload titles it `Y`. -/
def dlC7 : Downloader :=
  { blocks := [("a", .childDatabase "X")],
    pageBlocks := [],
    pages := [],
    databases := [("a", ⟨["Y"], [("rel", .relationDef (some "a"))]⟩)],
    queries := [] }

def itemYC7 : ItemInfo := ⟨.database, "a", "Y", none⟩

def itemXC7 : ItemInfo := ⟨.database, "a", "X", some "p"⟩

/-- A block that lists itself among its children with `has_children` set. -/
def dlC8 : Downloader :=
  { blocks := [("a", .childPage "A")],
    pageBlocks := [("a", [⟨"a", true⟩])],
    pages := [],
    databases := [],
    queries := [] }

/-- A two-element relation cycle `a ↔ b` for the termination witness. -/
def dlC8w : Downloader :=
  { blocks := [],
    pageBlocks := [],
    pages := [],
    databases :=
      [("a", ⟨["A"], [("toB", .relationDef (some "b"))]⟩),
       ("b", ⟨["B"], [("toA", .relationDef (some "a"))]⟩)],
    queries := [] }

def hexA : List Char := List.replicate 32 'a'

def hexB : List Char := List.replicate 32 'b'

def regC6 : LinkRegistry :=
  [(hexA, ⟨.page, 's' :: '1' :: []⟩), (hexB, ⟨.page, 's' :: '2' :: []⟩)]

/-- `[a[b](https://www.notion.so/<a·32>)](https://www.notion.so/<b·32>)`:
a URL-form link nested in the text of another URL-form link. -/
def cexContent : List Char :=
  '[' :: 'a' :: '[' :: 'b' :: ']' :: '(' :: (notionHost ++ hexA) ++
    ')' :: ']' :: '(' :: (notionHost ++ hexB) ++ ')' :: []

/-- A dashed id (32 `c`s) for the witnesses. -/
def dashC5 : TargetForm :=
  .dashed (List.replicate 8 'c') (List.replicate 4 'c') (List.replicate 4 'c')
    (List.replicate 4 'c') (List.replicate 12 'c')

def regC5 : LinkRegistry := [(List.replicate 32 'c', ⟨.database, 'd' :: 'b' :: []⟩)]


/-- A single URL-form link over a registered id: after one rewriter run no
registered raw target remains. -/
def wC6 : List Char :=
  '[' :: 'a' :: ']' :: '(' :: (notionHost ++ hexA) ++ ')' :: []

/-! ## Lemmas and theorems -/


theorem lookupL_setItem_self {K V : Type} [DecidableEq K] (k : K) (v : V) (l : List (K × V)) :
    lookupL k (setItem k v l) = some v := by
  induction l with
  | nil => simp [setItem, lookupL]
  | cons p rest ih =>
    obtain ⟨k2, v2⟩ := p
    by_cases h : k2 = k
    · simp [setItem, h, lookupL]
    · simp [setItem, h, lookupL, ih]

theorem lookupL_setItem_ne {K V : Type} [DecidableEq K] {k k2 : K} (v : V)
    (l : List (K × V)) (h : k ≠ k2) : lookupL k (setItem k2 v l) = lookupL k l := by
  induction l with
  | nil => simp [setItem, lookupL, if_neg (Ne.symm h)]
  | cons p rest ih =>
    obtain ⟨k3, v3⟩ := p
    by_cases h3 : k3 = k2
    · subst h3
      simp only [setItem, if_pos rfl, lookupL, if_neg (Ne.symm h)]
    · simp only [setItem, if_neg h3, lookupL]
      by_cases h4 : k3 = k
      · simp [h4]
      · simp [h4, ih]

theorem lookupL_none_iff {K V : Type} [DecidableEq K] (k : K) (l : List (K × V)) :
    lookupL k l = none ↔ k ∉ keysOf l := by
  induction l with
  | nil => simp [lookupL, keysOf]
  | cons p rest ih =>
    obtain ⟨k2, v2⟩ := p
    by_cases h : k2 = k
    · simp [lookupL, h, keysOf]
    · simp only [lookupL, if_neg h, keysOf, List.map_cons, List.mem_cons]
      rw [ih]
      constructor
      · intro hn hor
        rcases hor with hor | hor
        · exact h hor.symm
        · exact hn (by simpa [keysOf] using hor)
      · intro hn hm
        exact hn (Or.inr (by simpa [keysOf] using hm))

theorem keysOf_setItem_mem {K V : Type} [DecidableEq K] (k : K) (v : V) (l : List (K × V))
    (h : k ∈ keysOf l) : keysOf (setItem k v l) = keysOf l := by
  induction l with
  | nil => simp [keysOf] at h
  | cons p rest ih =>
    obtain ⟨k2, v2⟩ := p
    have hcons : keysOf ((k2, v2) :: rest) = k2 :: keysOf rest := rfl
    by_cases h2 : k2 = k
    · simp [setItem, h2, keysOf]
    · have hm : k ∈ keysOf rest := by
        rw [hcons] at h
        rcases List.mem_cons.mp h with h | h
        · exact absurd h.symm h2
        · exact h
      simp only [setItem, if_neg h2]
      show k2 :: keysOf (setItem k v rest) = keysOf ((k2, v2) :: rest)
      rw [ih hm, hcons]

theorem keysOf_setItem_not_mem {K V : Type} [DecidableEq K] (k : K) (v : V) (l : List (K × V))
    (h : k ∉ keysOf l) : keysOf (setItem k v l) = keysOf l ++ [k] := by
  induction l with
  | nil => simp [setItem, keysOf]
  | cons p rest ih =>
    obtain ⟨k2, v2⟩ := p
    have hcons : keysOf ((k2, v2) :: rest) = k2 :: keysOf rest := rfl
    have h2 : k2 ≠ k := by
      intro hh
      exact h (by rw [hcons, hh]; exact List.mem_cons_self _ _)
    have hr : k ∉ keysOf rest := by
      intro hh
      exact h (by rw [hcons]; exact List.mem_cons_of_mem _ hh)
    simp only [setItem, if_neg h2]
    show k2 :: keysOf (setItem k v rest) = keysOf ((k2, v2) :: rest) ++ [k]
    rw [ih hr, hcons]
    rfl

theorem nodup_setItem {K V : Type} [DecidableEq K] (k : K) (v : V) (l : List (K × V))
    (h : (keysOf l).Nodup) : (keysOf (setItem k v l)).Nodup := by
  by_cases hm : k ∈ keysOf l
  · rw [keysOf_setItem_mem k v l hm]; exact h
  · rw [keysOf_setItem_not_mem k v l hm]
    simp [List.nodup_append, h, hm]

theorem collectRelProps_preserves (dl : Downloader) :
    ∀ (fuel : Nat) (props : List (String × PropDefKind)) (reg reg' : CollectReg),
      collectRelProps dl fuel props reg = some reg' →
      ((∀ k v, lookupL k reg = some v → lookupL k reg' = some v) ∧
        ((keysOf reg).Nodup → (keysOf reg').Nodup)) := by
  intro fuel
  induction fuel with
  | zero =>
    intro props reg reg' h
    cases props with
    | nil =>
      cases h
      exact ⟨fun k v hv => hv, fun hn => hn⟩
    | cons p rest => exact absurd h (by simp [collectRelProps])
  | succ n ih =>
    intro props reg reg' h
    cases props with
    | nil =>
      cases h
      exact ⟨fun k v hv => hv, fun hn => hn⟩
    | cons p rest =>
      obtain ⟨pname, pd⟩ := p
      cases pd with
      | titleDef => exact ih rest reg reg' (by simpa [collectRelProps] using h)
      | otherDef => exact ih rest reg reg' (by simpa [collectRelProps] using h)
      | relationDef dbid =>
        cases dbid with
        | none => exact ih rest reg reg' (by simpa [collectRelProps] using h)
        | some rid =>
          by_cases hemp : rid.isEmpty
          · exact ih rest reg reg' (by simpa [collectRelProps, hemp] using h)
          · by_cases hpresent : (lookupL rid reg).isSome
            · exact ih rest reg reg' (by simpa [collectRelProps, hemp, hpresent] using h)
            · cases hdb : download_database_data dl rid with
              | none =>
                exact ih rest reg reg'
                  (by simpa [collectRelProps, hemp, hpresent, hdb] using h)
              | some rdb =>
                have habs : lookupL rid reg = none := by
                  cases hl : lookupL rid reg with
                  | none => rfl
                  | some x => rw [hl] at hpresent; simp at hpresent
                have h2 : collectRelProps dl (n + 1)
                    ((pname, PropDefKind.relationDef (some rid)) :: rest) reg =
                    (match collectRelProps dl n rdb.properties
                        (setItem rid ⟨.database, rid, relatedTitleOf rdb, none⟩ reg) with
                     | none => none
                     | some reg3 => collectRelProps dl n rest reg3) := by
                  simp [collectRelProps, hemp, hpresent, hdb]
                rw [h2] at h
                cases hinner : collectRelProps dl n rdb.properties
                    (setItem rid ⟨.database, rid, relatedTitleOf rdb, none⟩ reg) with
                | none => rw [hinner] at h; exact absurd h (by simp)
                | some reg3 =>
                  rw [hinner] at h
                  have p1 := ih rdb.properties _ _ hinner
                  have p2 := ih rest _ _ h
                  constructor
                  · intro k v hv
                    have hkne : k ≠ rid := by
                      intro he
                      rw [he, habs] at hv
                      exact Option.noConfusion hv
                    exact p2.1 k v (p1.1 k v (by rw [lookupL_setItem_ne _ _ hkne]; exact hv))
                  · intro hn
                    exact p2.2 (p1.2 (nodup_setItem _ _ _ hn))

theorem collect_related_preserves (dl : Downloader) (fuel : Nat) (did : String)
    (reg reg' : CollectReg) (h : collect_related_databases dl fuel did reg = some reg') :
    ((∀ k v, lookupL k reg = some v → lookupL k reg' = some v) ∧
      ((keysOf reg).Nodup → (keysOf reg').Nodup)) := by
  unfold collect_related_databases at h
  cases hd : download_database_data dl did with
  | none =>
    rw [hd] at h
    cases h
    exact ⟨fun k v hv => hv, fun hn => hn⟩
  | some dbData =>
    rw [hd] at h
    exact collectRelProps_preserves dl fuel dbData.properties reg reg' h

theorem registry_invariants_amended (dl : Downloader) (fuel : Nat) (bid : String)
    (parent : Option String) (reg : CollectReg) (out : Option ItemInfo × CollectReg)
    (h : collect_page_or_database_info dl fuel bid reg parent = some out)
    (k : String) (v : ItemInfo) (hk : lookupL k reg = some v) :
    (∃ v2, lookupL k out.2 = some v2 ∧ v2.kind = v.kind ∧ v2.title = v.title ∧ v2.id = v.id ∧
      (v2.parent = v.parent ∨
        (pyTruthy v.parent = false ∧ k = bid ∧ v2.parent = parent))) ∧
      ((keysOf reg).Nodup → (keysOf out.2).Nodup) := by
  cases hb : lookupL bid reg with
  | some existing =>
    have h2 : out = (some (backfillParent existing parent),
        setItem bid (backfillParent existing parent) reg) := by
      have := h
      simp only [collect_page_or_database_info, hb] at this
      exact (Option.some_injective _ this).symm
    subst h2
    constructor
    · by_cases hkb : k = bid
      · subst hkb
        have hv : v = existing := by
          rw [hk] at hb
          exact (Option.some_injective _ hb.symm).symm
        subst hv
        refine ⟨backfillParent v parent, lookupL_setItem_self k _ reg, ?_⟩
        unfold backfillParent
        by_cases hc : pyTruthy parent && !(pyTruthy v.parent)
        · rw [if_pos hc]
          refine ⟨rfl, rfl, rfl, Or.inr ⟨?_, rfl, rfl⟩⟩
          have := (Bool.and_eq_true _ _).mp hc
          simpa using this.2
        · rw [if_neg hc]
          exact ⟨rfl, rfl, rfl, Or.inl rfl⟩
      · exact ⟨v, by rw [lookupL_setItem_ne _ _ hkb]; exact hk, rfl, rfl, rfl, Or.inl rfl⟩
    · exact fun hn => nodup_setItem _ _ _ hn
  | none =>
    have hkb : k ≠ bid := by
      intro he
      rw [he, hb] at hk
      exact Option.noConfusion hk
    cases hblk : download_block dl bid with
    | none =>
      have h2 : out = (none, reg) := by
        have := h
        simp only [collect_page_or_database_info, hb, hblk] at this
        exact (Option.some_injective _ this).symm
      subst h2
      exact ⟨⟨v, hk, rfl, rfl, rfl, Or.inl rfl⟩, fun hn => hn⟩
    | some bk =>
      cases bk with
      | childPage title =>
        have h2 : out = (some ⟨.page, bid, title, parent⟩,
            setItem bid ⟨.page, bid, title, parent⟩ reg) := by
          have := h
          simp only [collect_page_or_database_info, hb, hblk] at this
          exact (Option.some_injective _ this).symm
        subst h2
        exact ⟨⟨v, by rw [lookupL_setItem_ne _ _ hkb]; exact hk, rfl, rfl, rfl, Or.inl rfl⟩,
          fun hn => nodup_setItem _ _ _ hn⟩
      | childDatabase title =>
        cases hrel : collect_related_databases dl fuel bid reg with
        | none =>
          exfalso
          have := h
          simp only [collect_page_or_database_info, hb, hblk, hrel] at this
          exact Option.noConfusion this
        | some reg2 =>
          have h2 : out = (some ⟨.database, bid, title, parent⟩,
              setItem bid ⟨.database, bid, title, parent⟩ reg2) := by
            have := h
            simp only [collect_page_or_database_info, hb, hblk, hrel] at this
            exact (Option.some_injective _ this).symm
          subst h2
          have hp := collect_related_preserves dl fuel bid reg reg2 hrel
          exact ⟨⟨v, by rw [lookupL_setItem_ne _ _ hkb]; exact hp.1 k v hk, rfl, rfl, rfl,
            Or.inl rfl⟩, fun hn => nodup_setItem _ _ _ (hp.2 hn)⟩
      | otherBlock =>
        have h2 : out = (none, reg) := by
          have := h
          simp only [collect_page_or_database_info, hb, hblk] at this
          exact (Option.some_injective _ this).symm
        subst h2
        exact ⟨⟨v, hk, rfl, rfl, rfl, Or.inl rfl⟩, fun hn => hn⟩

theorem registry_invariants_amended_witness :
    ∃ v2,
      lookupL "b"
          (some (⟨EntryKind.page, "p1", "PageOne", some "z"⟩ : ItemInfo),
            [(("b" : String), (⟨EntryKind.page, "b", "bt", none⟩ : ItemInfo)),
             ("p1", ⟨EntryKind.page, "p1", "PageOne", some "z"⟩)]).2 = some v2 ∧
        v2.kind = EntryKind.page ∧ v2.title = "bt" ∧ v2.id = "b" ∧
        (v2.parent = none ∨ (pyTruthy none = false ∧ "b" = "p1" ∧ v2.parent = some "z")) :=
  (registry_invariants_amended dlC2 3 "p1" (some "z")
    [("b", ⟨EntryKind.page, "b", "bt", none⟩)]
    (some ⟨EntryKind.page, "p1", "PageOne", some "z"⟩,
      [("b", ⟨EntryKind.page, "b", "bt", none⟩),
       ("p1", ⟨EntryKind.page, "p1", "PageOne", some "z"⟩)])
    rfl "b" ⟨EntryKind.page, "b", "bt", none⟩ rfl).1

theorem collectRelProps_mono (dl : Downloader) :
    ∀ (fuel : Nat) (props : List (String × PropDefKind)) (reg reg' : CollectReg),
      collectRelProps dl fuel props reg = some reg' →
      ∀ fuel2, fuel ≤ fuel2 → collectRelProps dl fuel2 props reg = some reg' := by
  intro fuel
  induction fuel with
  | zero =>
    intro props reg reg' h fuel2 _
    cases props with
    | nil => cases h; cases fuel2 <;> rfl
    | cons p rest => exact absurd h (by simp [collectRelProps])
  | succ n ih =>
    intro props reg reg' h fuel2 hle
    cases props with
    | nil => cases h; cases fuel2 <;> rfl
    | cons p rest =>
      obtain ⟨m, rfl⟩ : ∃ m, fuel2 = m + 1 := ⟨fuel2 - 1, by omega⟩
      have hmn : n ≤ m := by omega
      obtain ⟨pname, pd⟩ := p
      cases pd with
      | titleDef =>
        have h2 : collectRelProps dl n rest reg = some reg' := by
          simpa [collectRelProps] using h
        simpa [collectRelProps] using ih rest reg reg' h2 m hmn
      | otherDef =>
        have h2 : collectRelProps dl n rest reg = some reg' := by
          simpa [collectRelProps] using h
        simpa [collectRelProps] using ih rest reg reg' h2 m hmn
      | relationDef dbid =>
        cases dbid with
        | none =>
          have h2 : collectRelProps dl n rest reg = some reg' := by
            simpa [collectRelProps] using h
          simpa [collectRelProps] using ih rest reg reg' h2 m hmn
        | some rid =>
          by_cases hemp : rid.isEmpty
          · have h2 : collectRelProps dl n rest reg = some reg' := by
              simpa [collectRelProps, hemp] using h
            simpa [collectRelProps, hemp] using ih rest reg reg' h2 m hmn
          · by_cases hpresent : (lookupL rid reg).isSome
            · have h2 : collectRelProps dl n rest reg = some reg' := by
                simpa [collectRelProps, hemp, hpresent] using h
              simpa [collectRelProps, hemp, hpresent] using ih rest reg reg' h2 m hmn
            · cases hdb : download_database_data dl rid with
              | none =>
                have h2 : collectRelProps dl n rest reg = some reg' := by
                  simpa [collectRelProps, hemp, hpresent, hdb] using h
                simpa [collectRelProps, hemp, hpresent, hdb] using ih rest reg reg' h2 m hmn
              | some rdb =>
                have hred : collectRelProps dl (n + 1)
                    ((pname, PropDefKind.relationDef (some rid)) :: rest) reg =
                    (match collectRelProps dl n rdb.properties
                        (setItem rid ⟨.database, rid, relatedTitleOf rdb, none⟩ reg) with
                     | none => none
                     | some reg3 => collectRelProps dl n rest reg3) := by
                  simp [collectRelProps, hemp, hpresent, hdb]
                have hred2 : collectRelProps dl (m + 1)
                    ((pname, PropDefKind.relationDef (some rid)) :: rest) reg =
                    (match collectRelProps dl m rdb.properties
                        (setItem rid ⟨.database, rid, relatedTitleOf rdb, none⟩ reg) with
                     | none => none
                     | some reg3 => collectRelProps dl m rest reg3) := by
                  simp [collectRelProps, hemp, hpresent, hdb]
                rw [hred] at h
                cases hinner : collectRelProps dl n rdb.properties
                    (setItem rid ⟨.database, rid, relatedTitleOf rdb, none⟩ reg) with
                | none => rw [hinner] at h; exact absurd h (by simp)
                | some reg3 =>
                  rw [hinner] at h
                  rw [hred2, ih rdb.properties _ reg3 hinner m hmn]
                  exact ih rest reg3 reg' h m hmn

theorem filterLenMono {α : Type} (p q : α → Bool) (h : ∀ a, p a = true → q a = true) :
    ∀ l : List α, (l.filter p).length ≤ (l.filter q).length := by
  intro l
  induction l with
  | nil => simp
  | cons a t ih =>
    by_cases hp : p a = true
    · rw [List.filter_cons_of_pos hp, List.filter_cons_of_pos (h a hp)]
      simpa using ih
    · rw [List.filter_cons_of_neg (by simpa using hp)]
      by_cases hq : q a = true
      · rw [List.filter_cons_of_pos hq]
        exact Nat.le_succ_of_le ih
      · rw [List.filter_cons_of_neg (by simpa using hq)]
        exact ih

theorem filterLenLt {α : Type} (p q : α → Bool) (a : α)
    (hmono : ∀ b, q b = true → p b = true) :
    ∀ l : List α, a ∈ l → p a = true → q a = false →
      (l.filter q).length < (l.filter p).length := by
  intro l
  induction l with
  | nil => intro h; cases h
  | cons b t ih =>
    intro hmem hp hq
    rcases List.mem_cons.mp hmem with he | ht
    · subst he
      rw [List.filter_cons_of_pos hp, List.filter_cons_of_neg (by simp [hq])]
      exact Nat.lt_succ_of_le (filterLenMono q p hmono t)
    · by_cases hpb : p b = true
      · rw [List.filter_cons_of_pos hpb]
        by_cases hqb : q b = true
        · rw [List.filter_cons_of_pos hqb]
          exact Nat.succ_lt_succ (ih ht hp hq)
        · rw [List.filter_cons_of_neg (by simpa using hqb)]
          exact Nat.lt_succ_of_lt (ih ht hp hq)
      · have hqb : ¬ q b = true := fun hh => hpb (hmono b hh)
        rw [List.filter_cons_of_neg (by simpa using hqb),
          List.filter_cons_of_neg (by simpa using hpb)]
        exact ih ht hp hq

theorem missingCount_le_of_preserve (dl : Downloader) (reg reg' : CollectReg)
    (h : ∀ k v, lookupL k reg = some v → lookupL k reg' = some v) :
    missingCount dl reg' ≤ missingCount dl reg := by
  unfold missingCount
  apply filterLenMono
  intro i hi
  cases hl : lookupL i reg with
  | none => simp
  | some v =>
    rw [h i v hl] at hi
    simp at hi

theorem lookupL_isSome_mem {K V : Type} [DecidableEq K] (k : K) (l : List (K × V))
    (h : (lookupL k l).isSome) : k ∈ keysOf l := by
  by_contra hnot
  rw [(lookupL_none_iff k l).mpr hnot] at h
  simp at h

theorem missingCount_lt_insert (dl : Downloader) (reg : CollectReg) (rid : String)
    (v : ItemInfo) (habs : lookupL rid reg = none)
    (hdb : (lookupL rid dl.databases).isSome) :
    missingCount dl (setItem rid v reg) < missingCount dl reg := by
  unfold missingCount
  apply filterLenLt (fun i => (lookupL i reg).isNone)
    (fun i => (lookupL i (setItem rid v reg)).isNone) rid
  · intro b hb
    cases hl : lookupL b reg with
    | none => simp
    | some w =>
      by_cases hbe : b = rid
      · rw [hbe, habs] at hl
        exact Option.noConfusion hl
      · rw [lookupL_setItem_ne _ _ hbe, hl] at hb
        simp at hb
  · exact lookupL_isSome_mem rid dl.databases hdb
  · rw [habs]; rfl
  · rw [lookupL_setItem_self]; rfl

theorem collectRelProps_total (dl : Downloader) :
    ∀ (n : Nat) (props : List (String × PropDefKind)) (reg : CollectReg),
      missingCount dl reg ≤ n → ∃ fuel, (collectRelProps dl fuel props reg).isSome := by
  intro n
  induction n with
  | zero =>
    intro props
    induction props with
    | nil => intro reg hm; exact ⟨0, by simp [collectRelProps]⟩
    | cons p rest ihp =>
      intro reg hm
      obtain ⟨pname, pd⟩ := p
      obtain ⟨f, hf⟩ := ihp reg hm
      cases pd with
      | titleDef => exact ⟨f + 1, by simpa [collectRelProps] using hf⟩
      | otherDef => exact ⟨f + 1, by simpa [collectRelProps] using hf⟩
      | relationDef dbid =>
        cases dbid with
        | none => exact ⟨f + 1, by simpa [collectRelProps] using hf⟩
        | some rid =>
          by_cases hemp : rid.isEmpty
          · exact ⟨f + 1, by simpa [collectRelProps, hemp] using hf⟩
          · by_cases hpresent : (lookupL rid reg).isSome
            · exact ⟨f + 1, by simpa [collectRelProps, hemp, hpresent] using hf⟩
            · cases hdb : download_database_data dl rid with
              | none => exact ⟨f + 1, by simpa [collectRelProps, hemp, hpresent, hdb] using hf⟩
              | some rdb =>
                exfalso
                have habs : lookupL rid reg = none := by
                  cases hl : lookupL rid reg with
                  | none => rfl
                  | some x => rw [hl] at hpresent; simp at hpresent
                have hlt := missingCount_lt_insert dl reg rid
                  ⟨.database, rid, relatedTitleOf rdb, none⟩ habs
                  (by rw [show lookupL rid dl.databases = download_database_data dl rid from rfl,
                    hdb]; rfl)
                omega
  | succ n ihn =>
    intro props
    induction props with
    | nil => intro reg hm; exact ⟨0, by simp [collectRelProps]⟩
    | cons p rest ihp =>
      intro reg hm
      obtain ⟨pname, pd⟩ := p
      cases pd with
      | titleDef =>
        obtain ⟨f, hf⟩ := ihp reg hm
        exact ⟨f + 1, by simpa [collectRelProps] using hf⟩
      | otherDef =>
        obtain ⟨f, hf⟩ := ihp reg hm
        exact ⟨f + 1, by simpa [collectRelProps] using hf⟩
      | relationDef dbid =>
        cases dbid with
        | none =>
          obtain ⟨f, hf⟩ := ihp reg hm
          exact ⟨f + 1, by simpa [collectRelProps] using hf⟩
        | some rid =>
          by_cases hemp : rid.isEmpty
          · obtain ⟨f, hf⟩ := ihp reg hm
            exact ⟨f + 1, by simpa [collectRelProps, hemp] using hf⟩
          · by_cases hpresent : (lookupL rid reg).isSome
            · obtain ⟨f, hf⟩ := ihp reg hm
              exact ⟨f + 1, by simpa [collectRelProps, hemp, hpresent] using hf⟩
            · cases hdb : download_database_data dl rid with
              | none =>
                obtain ⟨f, hf⟩ := ihp reg hm
                exact ⟨f + 1, by simpa [collectRelProps, hemp, hpresent, hdb] using hf⟩
              | some rdb =>
                have habs : lookupL rid reg = none := by
                  cases hl : lookupL rid reg with
                  | none => rfl
                  | some x => rw [hl] at hpresent; simp at hpresent
                have hlt := missingCount_lt_insert dl reg rid
                  ⟨.database, rid, relatedTitleOf rdb, none⟩ habs
                  (by rw [show lookupL rid dl.databases = download_database_data dl rid from rfl,
                    hdb]; rfl)
                have hm2 : missingCount dl
                    (setItem rid ⟨.database, rid, relatedTitleOf rdb, none⟩ reg) ≤ n := by
                  omega
                obtain ⟨f1, h1⟩ := ihn rdb.properties _ hm2
                cases hinner : collectRelProps dl f1 rdb.properties
                    (setItem rid ⟨.database, rid, relatedTitleOf rdb, none⟩ reg) with
                | none => rw [hinner] at h1; simp at h1
                | some reg3 =>
                  have hpres := collectRelProps_preserves dl f1 rdb.properties _ _ hinner
                  have hm3 : missingCount dl reg3 ≤ n + 1 := by
                    have := missingCount_le_of_preserve dl _ reg3 hpres.1
                    omega
                  obtain ⟨f2, h2⟩ := ihp reg3 hm3
                  cases hrest : collectRelProps dl f2 rest reg3 with
                  | none => rw [hrest] at h2; simp at h2
                  | some reg4 =>
                    refine ⟨max f1 f2 + 1, ?_⟩
                    have hred : collectRelProps dl (max f1 f2 + 1)
                        ((pname, PropDefKind.relationDef (some rid)) :: rest) reg =
                        (match collectRelProps dl (max f1 f2) rdb.properties
                            (setItem rid ⟨.database, rid, relatedTitleOf rdb, none⟩ reg) with
                         | none => none
                         | some reg3 => collectRelProps dl (max f1 f2) rest reg3) := by
                      simp [collectRelProps, hemp, hpresent, hdb]
                    rw [hred,
                      collectRelProps_mono dl f1 rdb.properties _ reg3 hinner (max f1 f2)
                        (Nat.le_max_left f1 f2)]
                    show (collectRelProps dl (max f1 f2) rest reg3).isSome = true
                    rw [collectRelProps_mono dl f2 rest reg3 reg4 hrest (max f1 f2)
                      (Nat.le_max_right f1 f2)]
                    rfl

theorem related_collect_terminates (dl : Downloader) (database_id : String)
    (reg : CollectReg) :
    (∃ fuel, (collect_related_databases dl fuel database_id reg).isSome) ∧
      collect_related_databases dlC8w 9 "a" [] =
        some [("b", ⟨.database, "b", "B", none⟩), ("a", ⟨.database, "a", "A", none⟩)] := by
  constructor
  · unfold collect_related_databases
    cases hd : download_database_data dl database_id with
    | none => exact ⟨0, by simp⟩
    | some dbData =>
      exact collectRelProps_total dl (missingCount dl reg) dbData.properties reg (le_refl _)
  · decide

theorem ancestorChain_none_eq (reg : CollectReg) (fuel : Nat) :
    ancestorChain reg fuel none = some [] := by cases fuel <;> rfl

theorem ancestorChain_isEmpty (reg : CollectReg) (fuel : Nat) (c : String)
    (h : c.isEmpty) : ancestorChain reg fuel (some c) = some [] := by
  cases fuel <;> simp [ancestorChain, h]

theorem ancestorChain_unknown (reg : CollectReg) (fuel : Nat) (c : String)
    (h : lookupL c reg = none) : ancestorChain reg fuel (some c) = some [] := by
  cases fuel <;> simp [ancestorChain, h]

theorem pathLoop_chain (slugf : String → String) (reg : CollectReg) (root : String) :
    ∀ (fuel : Nat) (cur : Option String) (acc : List String) (chain : List String),
      ancestorChain reg fuel cur = some chain →
      pathLoop slugf reg root fuel cur acc =
        some (((chain.filter (fun c => c != root)).map (titleSlugOf slugf reg)).reverse ++ acc) := by
  intro fuel
  induction fuel with
  | zero =>
    intro cur acc chain h
    cases cur with
    | none =>
      rw [ancestorChain_none_eq] at h
      cases h
      rfl
    | some c =>
      by_cases hemp : c.isEmpty
      · rw [ancestorChain_isEmpty reg 0 c hemp] at h
        cases h
        simp [pathLoop, hemp]
      · by_cases hs : (lookupL c reg).isSome
        · exfalso
          simp [ancestorChain, hemp, hs] at h
        · have hl : lookupL c reg = none := by
            cases hh : lookupL c reg with
            | none => rfl
            | some x => rw [hh] at hs; simp at hs
          rw [ancestorChain_unknown reg 0 c hl] at h
          cases h
          simp [pathLoop, hemp, hs]
  | succ n ih =>
    intro cur acc chain h
    cases cur with
    | none =>
      rw [ancestorChain_none_eq] at h
      cases h
      rfl
    | some c =>
      by_cases hemp : c.isEmpty
      · rw [ancestorChain_isEmpty reg (n + 1) c hemp] at h
        cases h
        simp [pathLoop, hemp]
      · cases hl : lookupL c reg with
        | none =>
          rw [ancestorChain_unknown reg (n + 1) c hl] at h
          cases h
          simp [pathLoop, hemp, hl]
        | some it =>
          cases hc : ancestorChain reg n it.parent with
          | none =>
            exfalso
            simp [ancestorChain, hemp, hl, hc] at h
          | some l =>
            have hch : chain = c :: l := by
              simp [ancestorChain, hemp, hl, hc] at h
              exact h.symm
            subst hch
            have hstep : pathLoop slugf reg root (n + 1) (some c) acc =
                pathLoop slugf reg root n it.parent
                  (if pyTruthy it.parent ∨ c ≠ root then
                    (if c ≠ root then slugf it.title :: acc else acc)
                  else acc) := by
              simp [pathLoop, hemp, hl]
            rw [hstep, ih it.parent _ l hc]
            congr 1
            by_cases hcr : c = root
            · have hfilter : (c :: l).filter (fun x => x != root) =
                  l.filter (fun x => x != root) := by
                rw [List.filter_cons_of_neg (by simp [hcr])]
              have hacc : (if pyTruthy it.parent ∨ c ≠ root then
                  (if c ≠ root then slugf it.title :: acc else acc) else acc) = acc := by
                by_cases hpt : pyTruthy it.parent <;> simp [hpt, hcr]
              rw [hfilter, hacc]
            · have hfilter : (c :: l).filter (fun x => x != root) =
                  c :: l.filter (fun x => x != root) := by
                rw [List.filter_cons_of_pos (by simp [hcr])]
              have hacc : (if pyTruthy it.parent ∨ c ≠ root then
                  (if c ≠ root then slugf it.title :: acc else acc) else acc) =
                  slugf it.title :: acc := by
                simp [hcr]
              rw [hfilter, hacc, List.map_cons, List.reverse_cons, List.append_assoc]
              have : titleSlugOf slugf reg c = slugf it.title := by
                simp [titleSlugOf, hl]
              rw [this]
              rfl

theorem pathLoop_mono (slugf : String → String) (reg : CollectReg) (root : String) :
    ∀ (fuel : Nat) (cur : Option String) (acc : List String) (r : List String),
      pathLoop slugf reg root fuel cur acc = some r →
      ∀ fuel2, fuel ≤ fuel2 → pathLoop slugf reg root fuel2 cur acc = some r := by
  intro fuel
  induction fuel with
  | zero =>
    intro cur acc r h fuel2 _
    cases cur with
    | none =>
      cases h
      cases fuel2 <;> rfl
    | some c =>
      by_cases hemp : c.isEmpty
      · have h2 : r = acc := by
          simp [pathLoop, hemp] at h
          exact h.symm
        subst h2
        cases fuel2 <;> simp [pathLoop, hemp]
      · by_cases hs : (lookupL c reg).isSome
        · exfalso
          simp [pathLoop, hemp, hs] at h
        · have hl : lookupL c reg = none := by
            cases hh : lookupL c reg with
            | none => rfl
            | some x => rw [hh] at hs; simp at hs
          have h2 : r = acc := by
            simp [pathLoop, hemp, hs] at h
            exact h.symm
          subst h2
          cases fuel2 <;> simp [pathLoop, hemp, hl, hs]
  | succ n ih =>
    intro cur acc r h fuel2 hle
    obtain ⟨m, rfl⟩ : ∃ m, fuel2 = m + 1 := ⟨fuel2 - 1, by omega⟩
    have hnm : n ≤ m := by omega
    cases cur with
    | none =>
      cases h
      rfl
    | some c =>
      by_cases hemp : c.isEmpty
      · simpa [pathLoop, hemp] using h
      · cases hl : lookupL c reg with
        | none => simpa [pathLoop, hemp, hl] using h
        | some it =>
          have hstep : ∀ k : Nat, pathLoop slugf reg root (k + 1) (some c) acc =
              pathLoop slugf reg root k it.parent
                (if pyTruthy it.parent ∨ c ≠ root then
                  (if c ≠ root then slugf it.title :: acc else acc)
                else acc) := by
            intro k
            simp [pathLoop, hemp, hl]
          rw [hstep] at h
          rw [hstep]
          exact ih it.parent _ r h m hnm

theorem build_item_path_spec (slugf : String → String) (fuel : Nat) (item_id : String)
    (reg : CollectReg) (root : String) (chain : List String)
    (hroot : ∀ it, lookupL root reg = some it → pyTruthy it.parent = false)
    (hchain : ancestorChain reg fuel (startCur item_id reg) = some chain) :
    build_item_path slugf fuel item_id reg root =
        some (String.intercalate "/"
          (((chain.filter (fun c => c != root)).map (titleSlugOf slugf reg)).reverse)) ∧
      (item_id = root → build_item_path slugf fuel item_id reg root = some "") ∧
      root ∉ chain.filter (fun c => c != root) ∧
      ∀ fuel2, fuel ≤ fuel2 →
        build_item_path slugf fuel2 item_id reg root =
          build_item_path slugf fuel item_id reg root := by
  have hrootchain : item_id = root → chain = [] := by
    intro hir
    subst hir
    cases hsr : lookupL item_id reg with
    | some it =>
      have hcur : startCur item_id reg = it.parent := by simp [startCur, hsr]
      rw [hcur] at hchain
      have hpt := hroot it hsr
      cases hp : it.parent with
      | none =>
        rw [hp, ancestorChain_none_eq] at hchain
        exact (Option.some_injective _ hchain).symm
      | some s =>
        rw [hp] at hpt
        have hse : s.isEmpty := by
          simp [pyTruthy] at hpt
          simpa using hpt
        rw [hp, ancestorChain_isEmpty reg fuel s hse] at hchain
        exact (Option.some_injective _ hchain).symm
    | none =>
      have hcur : startCur item_id reg = some item_id := by simp [startCur, hsr]
      rw [hcur, ancestorChain_unknown reg fuel item_id hsr] at hchain
      exact (Option.some_injective _ hchain).symm
  refine ⟨?_, ?_, ?_, ?_⟩
  · by_cases hir : item_id = root
    · rw [hrootchain hir]
      simp [build_item_path, hir]
      rfl
    · rw [show build_item_path slugf fuel item_id reg root =
          (pathLoop slugf reg root fuel (startCur item_id reg) []).map
            (String.intercalate "/") from by simp [build_item_path, hir]]
      rw [pathLoop_chain slugf reg root fuel _ [] chain hchain]
      simp
  · intro hir
    simp [build_item_path, hir]
  · intro hmem
    have := List.of_mem_filter hmem
    simp at this
  · intro fuel2 hle
    by_cases hir : item_id = root
    · simp [build_item_path, hir]
    · have hp1 := pathLoop_chain slugf reg root fuel _ [] chain hchain
      have hp2 := pathLoop_mono slugf reg root fuel _ [] _ hp1 fuel2 hle
      simp [build_item_path, hir, hp1, hp2]

theorem build_item_path_spec_witness :
    build_item_path slugIdFn 5 "b"
        [("r", ⟨EntryKind.page, "r", "root-title", none⟩),
         ("a", ⟨EntryKind.page, "a", "alpha", some "r"⟩),
         ("b", ⟨EntryKind.page, "b", "beta", some "a"⟩)] "r" = some "alpha" := by
  have h := build_item_path_spec slugIdFn 5 "b"
      [("r", ⟨EntryKind.page, "r", "root-title", none⟩),
       ("a", ⟨EntryKind.page, "a", "alpha", some "r"⟩),
       ("b", ⟨EntryKind.page, "b", "beta", some "a"⟩)] "r" ["a", "r"]
      (by
        intro it hit
        have h2 : (⟨EntryKind.page, "r", "root-title", none⟩ : ItemInfo) = it :=
          Option.some_injective _ hit
        rw [← h2]
        rfl)
      rfl
  rw [h.1]
  decide

theorem phase3_arity_mismatch_aborts (allData : List (String × EntryKind))
    (h : allData ≠ []) :
    phase3 allData [] = .error ([], PyError.typeError) ∧
      finishRun allData = .aborted 3 (allData.map Prod.fst) [] ∧
      exitCodeOf (finishRun allData) = 1 := by
  match allData, h with
  | (id, k) :: rest, _ =>
    have h3 : phase3 ((id, k) :: rest) [] = .error ([], PyError.typeError) := by
      cases k <;> rfl
    exact ⟨h3, by simp [finishRun, h3], by simp [finishRun, h3, exitCodeOf]⟩

theorem phase3_arity_mismatch_aborts_witness :
    phase3 [("r", EntryKind.page)] [] = .error ([], PyError.typeError) ∧
      finishRun [("r", EntryKind.page)] = .aborted 3 ["r"] [] ∧
      exitCodeOf (finishRun [("r", EntryKind.page)]) = 1 := by
  simpa using phase3_arity_mismatch_aborts [("r", EntryKind.page)] (by simp)

theorem field_renderer_fixed_cases (slugf : String → String) (ctx : ConvCtx)
    (rowId : Option String) :
    renderCell slugf ctx rowId (.number .absent) = "" ∧
      (∀ n : Int, renderCell slugf ctx rowId (.number (.val n)) = toString n) ∧
      renderCell slugf ctx rowId (.checkbox true) = "X" ∧
      renderCell slugf ctx rowId (.checkbox false) = "" ∧
      (∀ d : String, renderCell slugf ctx rowId (.dateV (some d)) = d) ∧
      renderCell slugf ctx rowId (.dateV none) = "" ∧
      (∀ (row : RowData) (column : String), lookupL column row.properties = none →
        renderRowCell slugf ctx row column = "") := by
  refine ⟨rfl, fun n => rfl, rfl, rfl, fun d => rfl, rfl, fun row column h => ?_⟩
  simp [renderRowCell, h]

theorem field_renderer_fixed_cases_witness :
    renderRowCell slugIdFn ⟨"t", [], []⟩ ⟨none, []⟩ "col" = "" :=
  (field_renderer_fixed_cases slugIdFn ⟨"t", [], []⟩ none).2.2.2.2.2.2 ⟨none, []⟩ "col" rfl

theorem run_aborts_despite_per_entity_failure :
    download_page_data dlC2 "p1" = none ∧
      recursively_collect_items dlC2 10 "r" [] = some regC2 ∧
      phase2 dlC2 regC2 = [("r", .page), ("p2", .page)] ∧
      mainRun (some ("token", "r")) dlC2 10 = some (.aborted 3 ["r", "p2"] []) ∧
      exitCodeOf (.aborted 3 ["r", "p2"] []) = 1 := by
  refine ⟨rfl, by decide, by decide, by decide, rfl⟩

theorem rowmap_link_ignores_blocks :
    resolveRelationTarget slugIdFn [] recsC4 "r1" = "[beta](c/beta.md)" ∧
      (lookupL "r1" recsC4).map RecordInfo.blocks = some [] ∧
      create_reverse_reference_table slugIdFn "tgt"
          [("tgt", [⟨"r1", "c", "beta", "Rel"⟩])] recsC4 [("cid", "c")] =
        "\n## Referenced by c\n\n| Record | Property |\n|--------|----------|\n| [beta](../c.md) | Rel |\n\n" := by
  refine ⟨by decide, rfl, by decide⟩

theorem relation_resolution_no_remote_cex :
    resolveRelationTarget slugIdFn [] [] ridC3 = "[ID: abcdefab...]" ∧
      specResolveReference slugIdFn [] [] remotePageC3 remoteNoneFn ridC3 =
        "[remote-page](remote-page.md)" ∧
      resolveRelationTarget slugIdFn [] [] ridC3 ≠
        specResolveReference slugIdFn [] [] remotePageC3 remoteNoneFn ridC3 ∧
      containsRun ridC3.toList "[ID: abcdefab...]".toList = false := by
  refine ⟨by decide, by decide, by decide, by decide⟩

theorem registry_overwrite_cex :
    collect_related_databases dlC7 5 "a" [] = some [("a", itemYC7)] ∧
      collect_page_or_database_info dlC7 5 "a" [] (some "p") =
        some (some itemXC7, [("a", itemXC7)]) ∧
      itemYC7.title ≠ itemXC7.title := by
  refine ⟨by decide, by decide, by decide⟩

theorem link_rewrite_not_idempotent_cex :
    update_markdown_links regC6 (update_markdown_links regC6 cexContent) ≠
      update_markdown_links regC6 cexContent := by decide


theorem foldlStr (l : List String) : ∀ a : String, l.foldl (fun r s => r ++ s) a = a ++ String.join l := by
  induction l with
  | nil =>
    intro a
    show a = a ++ String.join []
    rw [show String.join [] = "" from rfl, String.append_empty]
  | cons x xs ih =>
    intro a
    show List.foldl (fun r s => r ++ s) (a ++ x) xs = a ++ String.join (x :: xs)
    rw [ih (a ++ x)]
    have hx : String.join (x :: xs) = x ++ String.join xs := by
      show List.foldl (fun r s => r ++ s) ("" ++ x) xs = x ++ String.join xs
      rw [ih ("" ++ x), String.empty_append]
    rw [hx, String.append_assoc]

theorem stringJoin_append (l1 l2 : List String) :
    String.join (l1 ++ l2) = String.join l1 ++ String.join l2 := by
  show List.foldl (fun r s => r ++ s) "" (l1 ++ l2) = String.join l1 ++ String.join l2
  rw [List.foldl_append, foldlStr l2, foldlStr l1, String.empty_append]

theorem stringJoin_single (x : String) : String.join [x] = x := by
  show List.foldl (fun r s => r ++ s) "" [x] = x
  show "" ++ x = x
  exact String.empty_append x

theorem relation_resolution_order_amended (slugf : String → String)
    (ad : List (String × ItemInfo)) (ar : List (String × RecordInfo)) (rid : String)
    (dd : DatabaseData) (results : List RowData) (row : RowData)
    (d1 d2 : Downloader) (odir : String) (hres : results ≠ []) :
    convert_database_to_markdown slugf dd results ad ar d1 odir =
        convert_database_to_markdown slugf dd results ad ar d2 odir ∧
      (∀ info, lookupL rid ad = some info →
        resolveRelationTarget slugf ad ar rid =
          "[" ++ info.title ++ "](" ++ slugf info.title ++ ".md)") ∧
      (lookupL rid ad = none → ∀ ri, lookupL rid ar = some ri →
        resolveRelationTarget slugf ad ar rid =
          "[" ++ ri.title ++ "](" ++ slugf ri.database_title ++ "/" ++ slugf ri.title ++ ".md)") ∧
      (lookupL rid ad = none → lookupL rid ar = none →
        resolveRelationTarget slugf ad ar rid = "[ID: " ++ rid.take 8 ++ "...]") ∧
      (convert_database_to_markdown slugf dd (results ++ [row]) ad ar d1 odir).2.2 =
        (convert_database_to_markdown slugf dd results ad ar d1 odir).2.2 ++
          rowLine slugf ⟨dbTitleOf dd.titleRuns, ad, ar⟩
            (columnsFor (dbTitleOf dd.titleRuns) dd.properties) row := by
  refine ⟨rfl, ?_, ?_, ?_, ?_⟩
  · intro info h
    cases hk : info.kind <;> simp [resolveRelationTarget, h, hk]
  · intro h1 ri h2
    simp [resolveRelationTarget, h1, h2]
  · intro h1 h2
    simp [resolveRelationTarget, h1, h2]
  · have hne : (results ++ [row]).isEmpty = false := by
      cases results with
      | nil => exact absurd rfl hres
      | cons a l => rfl
    have hne2 : results.isEmpty = false := by
      cases results with
      | nil => exact absurd rfl hres
      | cons a l => rfl
    simp only [convert_database_to_markdown, hne, hne2, Bool.false_eq_true, if_false,
      List.map_append, List.map_cons, List.map_nil, stringJoin_append, stringJoin_single]
    simp [String.append_assoc]

theorem relation_resolution_order_amended_witness :
    resolveRelationTarget slugIdFn [("x", ⟨EntryKind.page, "x", "xt", none⟩)] recsC4 "x" =
      "[xt](xt.md)" := by
  have h := relation_resolution_order_amended slugIdFn
      [("x", ⟨EntryKind.page, "x", "xt", none⟩)] recsC4 "x" ⟨["d"], []⟩ [⟨none, []⟩] ⟨none, []⟩
      dlC2 dlC7 "o" (by simp)
  have h2 := h.2.1 ⟨EntryKind.page, "x", "xt", none⟩ rfl
  rw [h2]; decide

theorem recCollect_dlC8_none :
    ∀ fuel : Nat, (∀ reg, recCollect dlC8 fuel (.items "a") reg = none) ∧
      (∀ reg, recCollect dlC8 fuel (.loop [⟨"a", true⟩] "a") reg = none) := by
  intro fuel
  induction fuel with
  | zero => exact ⟨fun reg => rfl, fun reg => rfl⟩
  | succ n ih =>
    constructor
    · intro reg
      have hstep : recCollect dlC8 (n + 1) (.items "a") reg =
          recCollect dlC8 n (.loop [⟨"a", true⟩] "a")
            (match lookupL "a" reg with
             | some _ => reg
             | none =>
               setItem "a" ⟨.page, "a", "A", none⟩ (setItem "a" ⟨.page, "a", "A", none⟩ reg)) := by
        cases h : lookupL "a" reg with
        | some it => simp [recCollect, h, collect_page_or_database_info, download_page_blocks, dlC8, lookupL]
        | none => simp [recCollect, h, collect_page_or_database_info, download_block, download_page_blocks, dlC8, lookupL]
      rw [hstep]
      exact ih.2 _
    · intro reg
      have hcall : ∃ reg2, recCollect dlC8 (n + 1) (.loop [⟨"a", true⟩] "a") reg =
          (match recCollect dlC8 n (.items "a") reg2 with
           | none => none
           | some reg3 => recCollect dlC8 n (.loop [] "a") reg3) := by
        cases h : lookupL "a" reg with
        | some it =>
          refine ⟨setItem (backfillParent it (some "a")).id (backfillParent it (some "a"))
            (setItem "a" (backfillParent it (some "a")) reg), ?_⟩
          simp [recCollect, collect_page_or_database_info, h]
        | none =>
          refine ⟨setItem "a" ⟨.page, "a", "A", some "a"⟩
            (setItem "a" ⟨.page, "a", "A", some "a"⟩ reg), ?_⟩
          simp [recCollect, collect_page_or_database_info, h, download_block, dlC8, lookupL]
      obtain ⟨reg2, hc⟩ := hcall
      rw [hc, ih.1 reg2]

theorem tree_collect_diverges_cex : treeCollectDiverges dlC8 "a" := by
  intro fuel
  exact (recCollect_dlC8_none fuel).1 []


theorem takeHex_shape :
    ∀ (n : Nat) (s o r : List Char), takeHex n s = some (o, r) →
      s = o ++ r ∧ o.length = n ∧ allHex o = true := by
  intro n
  induction n with
  | zero =>
    intro s o r h
    cases h
    exact ⟨rfl, rfl, rfl⟩
  | succ m ih =>
    intro s o r h
    cases s with
    | nil => exact absurd h (by simp [takeHex])
    | cons c s2 =>
      by_cases hc : isHexDigit c
      · rw [show takeHex (m + 1) (c :: s2) =
            (match takeHex m s2 with
             | some (o2, r2) => some (c :: o2, r2)
             | none => none) from by simp [takeHex, hc]] at h
        cases hm : takeHex m s2 with
        | none => rw [hm] at h; exact absurd h (by simp)
        | some pr =>
          obtain ⟨o2, r2⟩ := pr
          rw [hm] at h
          have h2 : o = c :: o2 ∧ r = r2 := by
            have := (Option.some_injective _ h)
            exact ⟨congrArg Prod.fst this.symm, congrArg Prod.snd this.symm⟩
          obtain ⟨ho, hr⟩ := h2
          subst ho; subst hr
          obtain ⟨hs, hl, hh⟩ := ih s2 o2 r hm
          refine ⟨by rw [hs]; rfl, by simp [hl], ?_⟩
          simp [allHex, List.all_cons, hc]
          simpa [allHex] using hh
      · exact absurd h (by simp [takeHex, hc])

theorem takeHex_exact :
    ∀ (o : List Char) (r : List Char), allHex o = true →
      takeHex o.length (o ++ r) = some (o, r) := by
  intro o
  induction o with
  | nil => intro r _; rfl
  | cons c o2 ih =>
    intro r hh
    have hc : isHexDigit c = true := by
      simp [allHex, List.all_cons] at hh
      exact hh.1
    have ho2 : allHex o2 = true := by
      simp [allHex, List.all_cons] at hh
      simpa [allHex] using hh.2
    show takeHex (o2.length + 1) (c :: (o2 ++ r)) = some (c :: o2, r)
    simp [takeHex, hc, ih r ho2]

theorem dropLit_shape : ∀ (p s r : List Char), dropLit p s = some r → s = p ++ r := by
  intro p
  induction p with
  | nil => intro s r h; cases h; rfl
  | cons x p2 ih =>
    intro s r h
    cases s with
    | nil => exact absurd h (by simp [dropLit])
    | cons c s2 =>
      by_cases hc : c = x
      · subst hc
        rw [show dropLit (c :: p2) (c :: s2) = dropLit p2 s2 from by simp [dropLit]] at h
        rw [List.cons_append]
        exact congrArg (c :: ·) (ih s2 r h)
      · exact absurd h (by simp [dropLit, hc])

theorem dropLit_self : ∀ (p s : List Char), dropLit p (p ++ s) = some s := by
  intro p
  induction p with
  | nil => intro s; rfl
  | cons c p2 ih => intro s; simp [dropLit, ih]

theorem expectDash_shape (s r : List Char) (h : expectDash s = some r) : s = '-' :: r := by
  cases s with
  | nil => exact absurd h (by simp [expectDash])
  | cons c s2 =>
    by_cases hc : c = '-'
    · subst hc
      rw [show expectDash ('-' :: s2) = some s2 from by simp [expectDash]] at h
      rw [(Option.some_injective _ h)]
    · exact absurd h (by simp [expectDash, hc])

theorem parseUrlTarget_shape (s : List Char) (tg : MatchTarget) (r : List Char)
    (h : parseUrlTarget s = some (tg, r)) :
    s = tg.orig ++ r ∧ tg.orig = notionHost ++ tg.idChars := by
  cases hd : dropLit notionHost s with
  | none => rw [show parseUrlTarget s = none from by simp [parseUrlTarget, hd]] at h; exact absurd h (by simp)
  | some s2 =>
    have h1 : parseUrlTarget s =
        (match takeHex 32 s2 with
         | none => none
         | some (hex, r2) =>
           some ({ orig := notionHost ++ hex, idChars := hex }, r2)) := by
      simp [parseUrlTarget, hd]
    rw [h1] at h
    cases ht : takeHex 32 s2 with
    | none => rw [ht] at h; exact absurd h (by simp)
    | some pr =>
      obtain ⟨hex, r2⟩ := pr
      rw [ht] at h
      have h2 := Option.some_injective _ h
      have htg : tg = ⟨notionHost ++ hex, hex⟩ := (congrArg Prod.fst h2).symm
      have hr : r = r2 := (congrArg Prod.snd h2).symm
      subst htg; subst hr
      obtain ⟨hs2, _, _⟩ := takeHex_shape 32 s2 hex r ht
      refine ⟨?_, rfl⟩
      rw [dropLit_shape notionHost s s2 hd, hs2, List.append_assoc]

theorem takeHex_exact2 (n : Nat) (o r : List Char) (hlen : o.length = n)
    (hh : allHex o = true) : takeHex n (o ++ r) = some (o, r) := by
  subst hlen
  exact takeHex_exact o r hh

theorem parseUrlTarget_render (hex rest : List Char) (hlen : hex.length = 32)
    (hh : allHex hex = true) :
    parseUrlTarget ((notionHost ++ hex) ++ rest) = some (⟨notionHost ++ hex, hex⟩, rest) := by
  unfold parseUrlTarget
  rw [List.append_assoc, dropLit_self]
  simp [takeHex_exact2 32 hex rest hlen hh]

theorem parseUrlTarget_none_head (c : Char) (s : List Char) (hc : c ≠ 'h') :
    parseUrlTarget (c :: s) = none := by
  unfold parseUrlTarget
  rw [show notionHost = 'h' ::
      ('t' :: 't' :: 'p' :: 's' :: ':' :: '/' :: '/' :: 'w' :: 'w' :: 'w' :: '.' ::
        'n' :: 'o' :: 't' :: 'i' :: 'o' :: 'n' :: '.' :: 's' :: 'o' :: '/' :: []) from rfl]
  simp [dropLit, hc]

theorem parseUrlTarget_nil : parseUrlTarget [] = none := rfl

theorem allHex_dashChar (l : List Char) (h : allHex l = true) : l.all dashChar = true := by
  simp only [allHex, List.all_eq_true] at *
  intro c hc
  simp [dashChar, h c hc]

theorem parseDashedTarget_shape (s : List Char) (tg : MatchTarget) (r : List Char)
    (h : parseDashedTarget s = some (tg, r)) :
    s = tg.orig ++ r ∧ tg.orig.all dashChar = true ∧ tg.orig.length = 36 := by
  unfold parseDashedTarget at h
  cases h1 : takeHex 8 s with
  | none => simp only [h1] at h; exact Option.noConfusion h
  | some pr1 =>
  obtain ⟨a, s1⟩ := pr1
  simp only [h1] at h
  cases h2 : expectDash s1 with
  | none => simp only [h2] at h; exact Option.noConfusion h
  | some s2 =>
  simp only [h2] at h
  cases h3 : takeHex 4 s2 with
  | none => simp only [h3] at h; exact Option.noConfusion h
  | some pr3 =>
  obtain ⟨b, s3⟩ := pr3
  simp only [h3] at h
  cases h4 : expectDash s3 with
  | none => simp only [h4] at h; exact Option.noConfusion h
  | some s4 =>
  simp only [h4] at h
  cases h5 : takeHex 4 s4 with
  | none => simp only [h5] at h; exact Option.noConfusion h
  | some pr5 =>
  obtain ⟨c, s5⟩ := pr5
  simp only [h5] at h
  cases h6 : expectDash s5 with
  | none => simp only [h6] at h; exact Option.noConfusion h
  | some s6 =>
  simp only [h6] at h
  cases h7 : takeHex 4 s6 with
  | none => simp only [h7] at h; exact Option.noConfusion h
  | some pr7 =>
  obtain ⟨d, s7⟩ := pr7
  simp only [h7] at h
  cases h8 : expectDash s7 with
  | none => simp only [h8] at h; exact Option.noConfusion h
  | some s8 =>
  simp only [h8] at h
  cases h9 : takeHex 12 s8 with
  | none => simp only [h9] at h; exact Option.noConfusion h
  | some pr9 =>
  obtain ⟨e, s9⟩ := pr9
  simp only [h9] at h
  have hinj := Option.some_injective _ h
  have htg : tg = ⟨a ++ '-' :: b ++ '-' :: c ++ '-' :: d ++ '-' :: e,
      a ++ b ++ c ++ d ++ e⟩ := (congrArg Prod.fst hinj).symm
  have hr : r = s9 := (congrArg Prod.snd hinj).symm
  subst htg; subst hr
  obtain ⟨e1, l1, x1⟩ := takeHex_shape 8 s a s1 h1
  have e2 := expectDash_shape s1 s2 h2
  obtain ⟨e3, l3, x3⟩ := takeHex_shape 4 s2 b s3 h3
  have e4 := expectDash_shape s3 s4 h4
  obtain ⟨e5, l5, x5⟩ := takeHex_shape 4 s4 c s5 h5
  have e6 := expectDash_shape s5 s6 h6
  obtain ⟨e7, l7, x7⟩ := takeHex_shape 4 s6 d s7 h7
  have e8 := expectDash_shape s7 s8 h8
  obtain ⟨e9, l9, x9⟩ := takeHex_shape 12 s8 e r h9
  refine ⟨?_, ?_, ?_⟩
  · rw [e1, e2, e3, e4, e5, e6, e7, e8, e9]
    simp [List.append_assoc]
  · simp only [List.all_append, List.all_cons]
    simp [allHex_dashChar a x1, allHex_dashChar b x3, allHex_dashChar c x5,
      allHex_dashChar d x7, allHex_dashChar e x9, dashChar]
  · simp [List.length_append, l1, l3, l5, l7, l9]

theorem parseDashedTarget_render (a b c d e rest : List Char)
    (la : a.length = 8) (lb : b.length = 4) (lc : c.length = 4) (ld : d.length = 4)
    (le : e.length = 12) (xa : allHex a = true) (xb : allHex b = true)
    (xc : allHex c = true) (xd : allHex d = true) (xe : allHex e = true) :
    parseDashedTarget ((a ++ '-' :: b ++ '-' :: c ++ '-' :: d ++ '-' :: e) ++ rest) =
      some (⟨a ++ '-' :: b ++ '-' :: c ++ '-' :: d ++ '-' :: e,
        a ++ b ++ c ++ d ++ e⟩, rest) := by
  unfold parseDashedTarget
  have h1 : (a ++ '-' :: b ++ '-' :: c ++ '-' :: d ++ '-' :: e) ++ rest =
      a ++ ('-' :: (b ++ ('-' :: (c ++ ('-' :: (d ++ ('-' :: (e ++ rest)))))))) := by
    simp [List.append_assoc]
  have t5 := takeHex_exact2 12 e rest le xe
  have t4 := takeHex_exact2 4 d ('-' :: (e ++ rest)) ld xd
  have t3 := takeHex_exact2 4 c ('-' :: (d ++ ('-' :: (e ++ rest)))) lc xc
  have t2 := takeHex_exact2 4 b ('-' :: (c ++ ('-' :: (d ++ ('-' :: (e ++ rest)))))) lb xb
  have t1 := takeHex_exact2 8 a ('-' :: (b ++ ('-' :: (c ++ ('-' :: (d ++ ('-' :: (e ++ rest)))))))) la xa
  rw [h1]
  simp [t1, t2, t3, t4, t5, expectDash]

theorem parseDashedTarget_none_head (ch : Char) (s : List Char)
    (hc : isHexDigit ch = false) : parseDashedTarget (ch :: s) = none := by
  unfold parseDashedTarget
  rw [show takeHex 8 (ch :: s) = none from by simp [takeHex, hc]]

theorem parseTarget_shape (m : PatMode) (s : List Char) (tg : MatchTarget) (r : List Char)
    (h : parseTarget m s = some (tg, r)) : s = tg.orig ++ r := by
  cases m with
  | both =>
    rw [show parseTarget .both s =
        (match parseUrlTarget s with
         | some pr => some pr
         | none => parseDashedTarget s) from rfl] at h
    cases hu : parseUrlTarget s with
    | some pr =>
      rw [hu] at h
      simp only [] at h
      obtain ⟨tg2, r2⟩ := pr
      have hinj := Option.some_injective _ h
      have htg : tg2 = tg := congrArg Prod.fst hinj
      have hr : r2 = r := congrArg Prod.snd hinj
      subst htg; subst hr
      exact (parseUrlTarget_shape s tg2 r2 hu).1
    | none =>
      rw [hu] at h
      simp only [] at h
      exact (parseDashedTarget_shape s tg r h).1
  | dashedOnly =>
    exact (parseDashedTarget_shape s tg r (by simpa [parseTarget] using h)).1

theorem wf_url_unpack (hex : List Char) (h : (TargetForm.url hex).wf = true) :
    hex.length = 32 ∧ allHex hex = true := by
  simpa [TargetForm.wf] using h

theorem wf_dashed_unpack (a b c d e : List Char) (h : (TargetForm.dashed a b c d e).wf = true) :
    a.length = 8 ∧ b.length = 4 ∧ c.length = 4 ∧ d.length = 4 ∧ e.length = 12 ∧
      allHex a = true ∧ allHex b = true ∧ allHex c = true ∧ allHex d = true ∧
      allHex e = true := by
  simpa [TargetForm.wf, and_assoc] using h

theorem hexHead_ne_h (c : Char) (h : isHexDigit c = true) : c ≠ 'h' := by
  intro he
  rw [he] at h
  exact absurd h (by decide)

theorem parseTarget_render_both (tf : TargetForm) (rest : List Char) (htf : tf.wf = true) :
    parseTarget .both (tf.render ++ rest) = some (tgOf tf, rest) := by
  cases tf with
  | url hex =>
    obtain ⟨hlen, hhex⟩ := wf_url_unpack hex htf
    show parseTarget .both ((notionHost ++ hex) ++ rest) = some (⟨notionHost ++ hex, hex⟩, rest)
    rw [show parseTarget PatMode.both ((notionHost ++ hex) ++ rest) =
        (match parseUrlTarget ((notionHost ++ hex) ++ rest) with
         | some pr => some pr
         | none => parseDashedTarget ((notionHost ++ hex) ++ rest)) from rfl,
      parseUrlTarget_render hex rest hlen hhex]
  | dashed a b c d e =>
    obtain ⟨la, lb, lc, ld, le2, xa, xb, xc, xd, xe⟩ := wf_dashed_unpack a b c d e htf
    obtain ⟨a0, a2, ha⟩ : ∃ a0 a2, a = a0 :: a2 := by
      cases a with
      | nil => simp at la
      | cons a0 a2 => exact ⟨a0, a2, rfl⟩
    have ha0 : isHexDigit a0 = true := by
      subst ha
      simp only [allHex, List.all_cons, Bool.and_eq_true] at xa
      exact xa.1
    have hne : a0 ≠ 'h' := hexHead_ne_h a0 ha0
    have hurl : parseUrlTarget ((a ++ '-' :: b ++ '-' :: c ++ '-' :: d ++ '-' :: e) ++ rest) =
        none := by
      subst ha
      rw [show ((a0 :: a2) ++ '-' :: b ++ '-' :: c ++ '-' :: d ++ '-' :: e) ++ rest =
          a0 :: ((a2 ++ '-' :: b ++ '-' :: c ++ '-' :: d ++ '-' :: e) ++ rest) from by simp]
      exact parseUrlTarget_none_head a0 _ hne
    show parseTarget .both ((a ++ '-' :: b ++ '-' :: c ++ '-' :: d ++ '-' :: e) ++ rest) =
        some (⟨a ++ '-' :: b ++ '-' :: c ++ '-' :: d ++ '-' :: e, a ++ b ++ c ++ d ++ e⟩, rest)
    rw [show parseTarget PatMode.both ((a ++ '-' :: b ++ '-' :: c ++ '-' :: d ++ '-' :: e) ++ rest) =
        (match parseUrlTarget ((a ++ '-' :: b ++ '-' :: c ++ '-' :: d ++ '-' :: e) ++ rest) with
         | some pr => some pr
         | none => parseDashedTarget ((a ++ '-' :: b ++ '-' :: c ++ '-' :: d ++ '-' :: e) ++ rest))
        from rfl,
      hurl, parseDashedTarget_render a b c d e rest la lb lc ld le2 xa xb xc xd xe]

theorem parseTarget_render_dashed (a b c d e : List Char) (rest : List Char)
    (htf : (TargetForm.dashed a b c d e).wf = true) :
    parseTarget .dashedOnly ((TargetForm.dashed a b c d e).render ++ rest) =
      some (tgOf (TargetForm.dashed a b c d e), rest) := by
  obtain ⟨la, lb, lc, ld, le2, xa, xb, xc, xd, xe⟩ := wf_dashed_unpack a b c d e htf
  show parseTarget .dashedOnly ((a ++ '-' :: b ++ '-' :: c ++ '-' :: d ++ '-' :: e) ++ rest) =
      some (⟨a ++ '-' :: b ++ '-' :: c ++ '-' :: d ++ '-' :: e, a ++ b ++ c ++ d ++ e⟩, rest)
  rw [show parseTarget PatMode.dashedOnly
        ((a ++ '-' :: b ++ '-' :: c ++ '-' :: d ++ '-' :: e) ++ rest) =
      parseDashedTarget ((a ++ '-' :: b ++ '-' :: c ++ '-' :: d ++ '-' :: e) ++ rest) from rfl,
    parseDashedTarget_render a b c d e rest la lb lc ld le2 xa xb xc xd xe]

theorem parseTarget_dashedOnly_url_none (hex rest : List Char) :
    parseTarget .dashedOnly ((TargetForm.url hex).render ++ rest) = none := by
  show parseTarget .dashedOnly ((notionHost ++ hex) ++ rest) = none
  rw [show (notionHost ++ hex) ++ rest = 'h' ::
      ((('t' :: 't' :: 'p' :: 's' :: ':' :: '/' :: '/' :: 'w' :: 'w' :: 'w' :: '.' ::
        'n' :: 'o' :: 't' :: 'i' :: 'o' :: 'n' :: '.' :: 's' :: 'o' :: '/' :: []) ++ hex) ++ rest)
      from by simp [notionHost]]
  rw [show parseTarget PatMode.dashedOnly ('h' ::
      ((('t' :: 't' :: 'p' :: 's' :: ':' :: '/' :: '/' :: 'w' :: 'w' :: 'w' :: '.' ::
        'n' :: 'o' :: 't' :: 'i' :: 'o' :: 'n' :: '.' :: 's' :: 'o' :: '/' :: []) ++ hex) ++ rest)) =
      parseDashedTarget ('h' ::
      ((('t' :: 't' :: 'p' :: 's' :: ':' :: '/' :: '/' :: 'w' :: 'w' :: 'w' :: '.' ::
        'n' :: 'o' :: 't' :: 'i' :: 'o' :: 'n' :: '.' :: 's' :: 'o' :: '/' :: []) ++ hex) ++ rest))
      from rfl]
  exact parseDashedTarget_none_head 'h' _ (by decide)

theorem parseClose_cons2 (m : PatMode) (s : List Char) :
    parseClose m (']' :: '(' :: s) =
      (match parseTarget m s with
       | some (t, r) =>
         (match r with
          | c3 :: r2 => if c3 = ')' then some (t, r2) else none
          | [] => none)
       | none => none) := by
  simp [parseClose]

theorem parseClose_render_both (tf : TargetForm) (rest : List Char) (htf : tf.wf = true) :
    parseClose .both (']' :: '(' :: (tf.render ++ ')' :: rest)) = some (tgOf tf, rest) := by
  rw [parseClose_cons2, parseTarget_render_both tf (')' :: rest) htf]
  rfl

theorem parseClose_render_dashed (a b c d e : List Char) (rest : List Char)
    (htf : (TargetForm.dashed a b c d e).wf = true) :
    parseClose .dashedOnly
        (']' :: '(' :: ((TargetForm.dashed a b c d e).render ++ ')' :: rest)) =
      some (tgOf (TargetForm.dashed a b c d e), rest) := by
  rw [parseClose_cons2, parseTarget_render_dashed a b c d e (')' :: rest) htf]
  rfl

theorem parseClose_head_ne (m : PatMode) (c : Char) (s : List Char) (h : c ≠ ']') :
    parseClose m (c :: s) = none := by
  cases s with
  | nil => rfl
  | cons c2 s2 =>
    have : ¬ (c = ']' ∧ c2 = '(') := fun hh => h hh.1
    simp [parseClose, this]

theorem parseClose_shape (m : PatMode) (s : List Char) (tg : MatchTarget) (r : List Char)
    (h : parseClose m s = some (tg, r)) :
    s = ']' :: '(' :: (tg.orig ++ ')' :: r) := by
  cases s with
  | nil => exact absurd h (by simp [parseClose])
  | cons c1 s1 =>
    cases s1 with
    | nil =>
      rw [show parseClose m [c1] = none from rfl] at h
      exact Option.noConfusion h
    | cons c2 s2 =>
      by_cases h12 : c1 = ']' ∧ c2 = '('
      · obtain ⟨e1, e2⟩ := h12
        subst e1; subst e2
        rw [parseClose_cons2] at h
        cases ht : parseTarget m s2 with
        | none => simp only [ht] at h; exact Option.noConfusion h
        | some pr =>
          obtain ⟨tg2, r2⟩ := pr
          simp only [ht] at h
          cases r2 with
          | nil => exact Option.noConfusion h
          | cons c3 r3 =>
            have h2 : (if c3 = ')' then some (tg2, r3) else none) = some (tg, r) := h
            by_cases h3 : c3 = ')'
            · subst h3
              rw [if_pos rfl] at h2
              have hinj := Option.some_injective _ h2
              have htg : tg2 = tg := congrArg Prod.fst hinj
              have hr : r3 = r := congrArg Prod.snd hinj
              subst htg; subst hr
              have hs2 := parseTarget_shape m s2 tg2 (')' :: r3) ht
              rw [hs2]
            · rw [if_neg h3] at h2
              exact Option.noConfusion h2
      · rw [show parseClose m (c1 :: c2 :: s2) = none from by simp [parseClose, h12]] at h
        exact Option.noConfusion h

theorem parseClose_len (m : PatMode) (s : List Char) (tg : MatchTarget) (r : List Char)
    (h : parseClose m s = some (tg, r)) : r.length < s.length := by
  rw [parseClose_shape m s tg r h]
  simp [List.length_append]
  omega


theorem findText_step (m : PatMode) (pre : List Char) (c : Char) (cs : List Char) :
    findText m pre (c :: cs) =
      (match parseClose m (c :: cs) with
       | some (tg2, r2) => some (pre.reverse, tg2, r2)
       | none => if c = '\n' then none else findText m (c :: pre) cs) := rfl

theorem findText_rest_len (m : PatMode) :
    ∀ (s pre t : List Char) (tg : MatchTarget) (rest : List Char),
      findText m pre s = some (t, tg, rest) → rest.length < s.length := by
  intro s
  induction s with
  | nil => intro pre t tg rest h; exact absurd h (by simp [findText])
  | cons c cs ih =>
    intro pre t tg rest h
    rw [findText_step] at h
    cases hp : parseClose m (c :: cs) with
    | some pr =>
      obtain ⟨tg2, r2⟩ := pr
      simp only [hp] at h
      have hinj := Option.some_injective _ h
      have hrest : rest = r2 := by
        have := congrArg (fun x => x.2.2) hinj
        exact this.symm
      subst hrest
      exact parseClose_len m (c :: cs) tg2 rest hp
    | none =>
      simp only [hp] at h
      by_cases hn : c = '\n'
      · rw [if_pos hn] at h
        exact Option.noConfusion h
      · rw [if_neg hn] at h
        exact Nat.lt_succ_of_lt (ih (c :: pre) t tg rest h)

theorem findText_spanEq (m : PatMode) :
    ∀ (s pre t : List Char) (tg : MatchTarget) (rest : List Char),
      findText m pre s = some (t, tg, rest) →
      pre.reverse ++ s = t ++ ']' :: '(' :: (tg.orig ++ ')' :: rest) := by
  intro s
  induction s with
  | nil => intro pre t tg rest h; exact absurd h (by simp [findText])
  | cons c cs ih =>
    intro pre t tg rest h
    rw [findText_step] at h
    cases hp : parseClose m (c :: cs) with
    | some pr =>
      obtain ⟨tg2, r2⟩ := pr
      simp only [hp] at h
      have hinj := Option.some_injective _ h
      have ht : t = pre.reverse := (congrArg (fun x => x.1) hinj).symm
      have htg : tg = tg2 := by
        have := congrArg (fun x => x.2.1) hinj
        exact this.symm
      have hrest : rest = r2 := by
        have := congrArg (fun x => x.2.2) hinj
        exact this.symm
      subst ht; subst htg; subst hrest
      rw [parseClose_shape m (c :: cs) tg rest hp]
    | none =>
      simp only [hp] at h
      by_cases hn : c = '\n'
      · rw [if_pos hn] at h
        exact Option.noConfusion h
      · rw [if_neg hn] at h
        have := ih (c :: pre) t tg rest h
        rw [show (c :: pre).reverse = pre.reverse ++ [c] from by simp] at this
        rw [show pre.reverse ++ c :: cs = (pre.reverse ++ [c]) ++ cs from by simp]
        exact this

theorem findText_none_noRB (m : PatMode) :
    ∀ (s pre : List Char), (∀ c ∈ s, c ≠ ']') → findText m pre s = none := by
  intro s
  induction s with
  | nil => intro pre _; rfl
  | cons c cs ih =>
    intro pre h
    rw [findText_step, parseClose_head_ne m c cs (h c (List.mem_cons_self c cs))]
    by_cases hn : c = '\n'
    · simp [hn]
    · simp only [if_neg hn]
      exact ih (c :: pre) (fun x hx => h x (List.mem_cons_of_mem c hx))

theorem findText_through (m : PatMode) :
    ∀ (t pre s : List Char), (∀ c ∈ t, c ≠ ']' ∧ c ≠ '\n') →
      findText m pre (t ++ s) = findText m (t.reverse ++ pre) s := by
  intro t
  induction t with
  | nil => intro pre s _; simp
  | cons c t2 ih =>
    intro pre s h
    have hc := h c (List.mem_cons_self c t2)
    rw [show (c :: t2) ++ s = c :: (t2 ++ s) from rfl, findText_step,
      parseClose_head_ne m c (t2 ++ s) hc.1]
    simp only [if_neg hc.2]
    rw [ih (c :: pre) s (fun x hx => h x (List.mem_cons_of_mem c hx))]
    congr 1
    simp

theorem findText_close (m : PatMode) (s pre : List Char) (tg : MatchTarget) (r : List Char)
    (h : parseClose m s = some (tg, r)) :
    findText m pre s = some (pre.reverse, tg, r) := by
  cases s with
  | nil => exact absurd h (by simp [parseClose])
  | cons c cs =>
    rw [findText_step]
    simp only [h]

theorem findText_suffix_parseClose (m : PatMode) :
    ∀ (s pre t : List Char) (tg : MatchTarget) (rest : List Char),
      findText m pre s = some (t, tg, rest) →
      ∃ s2, s2 <:+ s ∧ parseClose m s2 = some (tg, rest) := by
  intro s
  induction s with
  | nil => intro pre t tg rest h; exact absurd h (by simp [findText])
  | cons c cs ih =>
    intro pre t tg rest h
    rw [findText_step] at h
    cases hp : parseClose m (c :: cs) with
    | some pr =>
      obtain ⟨tg2, r2⟩ := pr
      simp only [hp] at h
      have hinj := Option.some_injective _ h
      have htg : tg = tg2 := by
        have := congrArg (fun x => x.2.1) hinj
        exact this.symm
      have hrest : rest = r2 := by
        have := congrArg (fun x => x.2.2) hinj
        exact this.symm
      subst htg; subst hrest
      exact ⟨c :: cs, List.suffix_refl _, hp⟩
    | none =>
      simp only [hp] at h
      by_cases hn : c = '\n'
      · rw [if_pos hn] at h
        exact Option.noConfusion h
      · rw [if_neg hn] at h
        obtain ⟨s2, hs2, hp2⟩ := ih (c :: pre) t tg rest h
        exact ⟨s2, hs2.trans (List.suffix_cons c cs), hp2⟩

theorem subScan_step_cons (m : PatMode) (reg : LinkRegistry) (fuel : Nat) (c : Char)
    (cs : List Char) :
    subScan m reg (fuel + 1) (c :: cs) =
      (if c = '[' then
        (match findText m [] cs with
         | some (text, t, rest) => replaceMatch reg text t ++ subScan m reg fuel rest
         | none => c :: subScan m reg fuel cs)
      else c :: subScan m reg fuel cs) := rfl

theorem subScan_fuel_agree (m : PatMode) (reg : LinkRegistry) :
    ∀ (f1 f2 : Nat) (s : List Char), s.length ≤ f1 → s.length ≤ f2 →
      subScan m reg f1 s = subScan m reg f2 s := by
  intro f1
  induction f1 with
  | zero =>
    intro f2 s h1 _
    have hs : s = [] := List.length_eq_zero.mp (Nat.le_zero.mp h1)
    subst hs
    cases f2 <;> rfl
  | succ n ih =>
    intro f2 s h1 h2
    cases s with
    | nil => cases f2 <;> rfl
    | cons c cs =>
      obtain ⟨m2, rfl⟩ : ∃ k, f2 = k + 1 := ⟨f2 - 1, by
        cases f2 with
        | zero => simp at h2
        | succ k => omega⟩
      have hb1 : cs.length ≤ n := by
        simp only [List.length_cons] at h1
        omega
      have hb2 : cs.length ≤ m2 := by
        simp only [List.length_cons] at h2
        omega
      by_cases hc : c = '['
      · subst hc
        rw [subScan_step_cons, subScan_step_cons, if_pos rfl, if_pos rfl]
        cases hf : findText m [] cs with
        | some pr =>
          obtain ⟨text, t, rest⟩ := pr
          have hr : rest.length < cs.length := findText_rest_len m cs [] text t rest hf
          exact congrArg (replaceMatch reg text t ++ ·)
            (ih m2 rest (by omega) (by omega))
        | none => exact congrArg ('[' :: ·) (ih m2 cs hb1 hb2)
      · rw [subScan_step_cons, subScan_step_cons, if_neg hc, if_neg hc]
        exact congrArg (c :: ·) (ih m2 cs hb1 hb2)

theorem scanR_nil (m : PatMode) (reg : LinkRegistry) : scanR m reg [] = [] := rfl

theorem scanR_cons_ne (m : PatMode) (reg : LinkRegistry) (c : Char) (cs : List Char)
    (h : c ≠ '[') : scanR m reg (c :: cs) = c :: scanR m reg cs := by
  show subScan m reg (c :: cs).length (c :: cs) = c :: subScan m reg cs.length cs
  rw [show (c :: cs).length = cs.length + 1 from rfl, subScan_step_cons, if_neg h]

theorem scanR_cons_none (m : PatMode) (reg : LinkRegistry) (cs : List Char)
    (h : findText m [] cs = none) : scanR m reg ('[' :: cs) = '[' :: scanR m reg cs := by
  show subScan m reg ('[' :: cs).length ('[' :: cs) = '[' :: subScan m reg cs.length cs
  rw [show ('[' :: cs).length = cs.length + 1 from rfl, subScan_step_cons, if_pos rfl, h]

theorem scanR_cons_some (m : PatMode) (reg : LinkRegistry) (cs t : List Char)
    (tg : MatchTarget) (rest : List Char) (h : findText m [] cs = some (t, tg, rest)) :
    scanR m reg ('[' :: cs) = replaceMatch reg t tg ++ scanR m reg rest := by
  show subScan m reg ('[' :: cs).length ('[' :: cs) =
    replaceMatch reg t tg ++ subScan m reg rest.length rest
  rw [show ('[' :: cs).length = cs.length + 1 from rfl, subScan_step_cons, if_pos rfl, h]
  have hr : rest.length < cs.length := findText_rest_len m cs [] t tg rest h
  exact congrArg (replaceMatch reg t tg ++ ·)
    (subScan_fuel_agree m reg cs.length rest.length rest (by omega) (le_refl _))

theorem scanR_copy (m : PatMode) (reg : LinkRegistry) :
    ∀ (s : List Char), (∀ c ∈ s, c ≠ '[') → scanR m reg s = s := by
  intro s
  induction s with
  | nil => intro _; rfl
  | cons c cs ih =>
    intro h
    rw [scanR_cons_ne m reg c cs (h c (List.mem_cons_self c cs)),
      ih (fun x hx => h x (List.mem_cons_of_mem c hx))]

theorem scanR_append_copy (m : PatMode) (reg : LinkRegistry) :
    ∀ (pre s : List Char), (∀ c ∈ pre, c ≠ '[') →
      scanR m reg (pre ++ s) = pre ++ scanR m reg s := by
  intro pre
  induction pre with
  | nil => intro s _; rfl
  | cons c p2 ih =>
    intro s h
    rw [show (c :: p2) ++ s = c :: (p2 ++ s) from rfl,
      scanR_cons_ne m reg c (p2 ++ s) (h c (List.mem_cons_self c p2)),
      ih s (fun x hx => h x (List.mem_cons_of_mem c hx))]
    rfl

theorem slugChar_ne (c : Char) (h : slugChar c = true) :
    c ≠ ':' ∧ c ≠ ']' ∧ c ≠ '[' ∧ c ≠ ')' ∧ c ≠ '\n' := by
  refine ⟨?_, ?_, ?_, ?_, ?_⟩ <;>
    first
    | (intro he; rw [he] at h; exact absurd h (by decide))

theorem slugOk_mem (slug : List Char) (h : slugOkB slug = true) (c : Char) (hc : c ∈ slug) :
    slugChar c = true := by
  simp only [slugOkB, List.all_eq_true] at h
  exact h c hc

theorem containsRun_split (pat : List Char) :
    ∀ (l1 l2 : List Char), startsWithL pat l2 = true → containsRun pat (l1 ++ l2) = true := by
  intro l1
  induction l1 with
  | nil =>
    intro l2 h
    cases l2 with
    | nil => exact h
    | cons c cs => simp [containsRun, h]
  | cons c l2 ih =>
    intro l3 h
    rw [show (c :: l2) ++ l3 = c :: (l2 ++ l3) from rfl]
    simp [containsRun, ih l3 h]

theorem parseUrl_slug_block (slug post : List Char) (hs : slugOkB slug = true) :
    parseUrlTarget (slug ++ '.' :: 'm' :: 'd' :: ')' :: post) = none := by
  cases hd : dropLit notionHost (slug ++ '.' :: 'm' :: 'd' :: ')' :: post) with
  | none => simp [parseUrlTarget, hd]
  | some r =>
    exfalso
    have heq := (dropLit_shape notionHost _ r hd)
    rcases List.append_eq_append_iff.mp heq with ⟨a2, hm1, hm2⟩ | ⟨c2, hm1, hm2⟩
    · cases a2 with
      | nil =>
        rw [List.append_nil] at hm1
        rw [← hm1] at hs
        exact absurd hs (by decide)
      | cons x a3 =>
        have hx : x = '.' ∧ 'm' :: 'd' :: ')' :: post = a3 ++ r := by
          rw [show (x :: a3) ++ r = x :: (a3 ++ r) from rfl] at hm2
          exact ⟨(List.cons.injEq _ _ _ _ |>.mp hm2).1.symm,
            (List.cons.injEq _ _ _ _ |>.mp hm2).2⟩
        obtain ⟨hx1, hx2⟩ := hx
        subst hx1
        cases a3 with
        | nil =>
          have hlast : notionHost.getLast? = some '.' := by
            rw [hm1]
            exact List.getLast?_concat _
          exact absurd hlast (by decide)
        | cons y a4 =>
          have hy : y = 'm' := by
            rw [show (y :: a4) ++ r = y :: (a4 ++ r) from rfl] at hx2
            exact ((List.cons.injEq _ _ _ _).mp hx2).1.symm
          subst hy
          have hrun : containsRun ('.' :: 'm' :: []) notionHost = true := by
            rw [hm1]
            exact containsRun_split _ slug _ (by simp [startsWithL])
          exact absurd hrun (by decide)
    · rw [hm1] at hs
      simp only [slugOkB, List.all_append, Bool.and_eq_true] at hs
      have : slugOkB notionHost = true := hs.1
      exact absurd this (by decide)

theorem parseClose_slug_block (m : PatMode) (slug post : List Char)
    (hs : slugOkB slug = true) :
    parseClose m (']' :: '(' :: ((slug ++ mdSuffix) ++ ')' :: post)) = none := by
  have harr : (slug ++ mdSuffix) ++ ')' :: post = slug ++ '.' :: 'm' :: 'd' :: ')' :: post := by
    simp [mdSuffix]
  rw [parseClose_cons2, harr]
  have hdash : ∀ (tg : MatchTarget) (r : List Char),
      parseDashedTarget (slug ++ '.' :: 'm' :: 'd' :: ')' :: post) = some (tg, r) →
      (match r with
       | c3 :: r2 => if c3 = ')' then some (tg, r2) else none
       | [] => (none : Option (MatchTarget × List Char))) = none := by
    intro tg r h
    obtain ⟨hsplit, hall, hlen⟩ := parseDashedTarget_shape _ tg r h
    rcases List.append_eq_append_iff.mp hsplit with ⟨a2, hm1, hm2⟩ | ⟨c2, hm1, hm2⟩
    · cases a2 with
      | nil =>
        rw [List.nil_append] at hm2
        rw [← hm2]
        simp
      | cons x a3 =>
        exfalso
        have hx : x = '.' := by
          rw [show (x :: a3) ++ r = x :: (a3 ++ r) from rfl] at hm2
          exact ((List.cons.injEq _ _ _ _).mp hm2).1.symm
        subst hx
        have hmem : ('.' : Char) ∈ tg.orig := by
          rw [hm1]
          exact List.mem_append_right slug (List.mem_cons_self _ _)
        have := List.all_eq_true.mp hall ('.' : Char) hmem
        exact absurd this (by decide)
    · cases c2 with
      | nil =>
        rw [List.nil_append] at hm2
        rw [hm2]
        simp
      | cons y m3 =>
        have hyr : r = y :: (m3 ++ '.' :: 'm' :: 'd' :: ')' :: post) := by
          rw [hm2]
          rfl
        have hymem : y ∈ slug := by
          rw [hm1]
          exact List.mem_append_right tg.orig (List.mem_cons_self _ _)
        have hy := slugChar_ne y (slugOk_mem slug hs y hymem)
        rw [hyr]
        simp [hy.2.2.2.1]
  cases m with
  | both =>
    cases hpt : parseTarget .both (slug ++ '.' :: 'm' :: 'd' :: ')' :: post) with
    | none => simp [hpt]
    | some pr =>
      obtain ⟨tg, r⟩ := pr
      simp only [hpt]
      have hd : parseDashedTarget (slug ++ '.' :: 'm' :: 'd' :: ')' :: post) = some (tg, r) := by
        rw [show parseTarget PatMode.both (slug ++ '.' :: 'm' :: 'd' :: ')' :: post) =
            (match parseUrlTarget (slug ++ '.' :: 'm' :: 'd' :: ')' :: post) with
             | some pr => some pr
             | none => parseDashedTarget (slug ++ '.' :: 'm' :: 'd' :: ')' :: post)) from rfl,
          parseUrl_slug_block slug post hs] at hpt
        exact hpt
      exact hdash tg r hd
  | dashedOnly =>
    cases hpt : parseTarget .dashedOnly (slug ++ '.' :: 'm' :: 'd' :: ')' :: post) with
    | none => simp [hpt]
    | some pr =>
      obtain ⟨tg, r⟩ := pr
      simp only [hpt]
      exact hdash tg r hpt

theorem dashChar_ne_h2 (c : Char) (h : dashChar c = true) : c ≠ 'h' := by
  intro he; rw [he] at h; exact absurd h (by decide)

theorem hexDigit_ne (c : Char) (h : isHexDigit c = true) :
    c ≠ '[' ∧ c ≠ ']' ∧ c ≠ '\n' := by
  refine ⟨?_, ?_, ?_⟩ <;> (intro he; rw [he] at h; exact absurd h (by decide))

theorem parseUrl_of_dashed (s : List Char) (tg : MatchTarget) (r : List Char)
    (h : parseDashedTarget s = some (tg, r)) : parseUrlTarget s = none := by
  obtain ⟨hsplit, hall, hlen⟩ := parseDashedTarget_shape s tg r h
  cases horig : tg.orig with
  | nil => rw [horig] at hlen; exact absurd hlen (by decide)
  | cons c cs =>
    have hc : dashChar c = true := by
      rw [horig] at hall
      exact List.all_eq_true.mp hall c (List.mem_cons_self c cs)
    have hne : c ≠ 'h' := dashChar_ne_h2 c hc
    rw [horig] at hsplit
    rw [hsplit, show (c :: cs) ++ r = c :: (cs ++ r) from rfl]
    exact parseUrlTarget_none_head c (cs ++ r) hne

theorem parseTarget_sub (s : List Char) (pr : MatchTarget × List Char)
    (h : parseTarget .dashedOnly s = some pr) : parseTarget .both s = some pr := by
  obtain ⟨tg, r⟩ := pr
  have hd : parseDashedTarget s = some (tg, r) := h
  rw [show parseTarget PatMode.both s =
      (match parseUrlTarget s with
       | some pr2 => some pr2
       | none => parseDashedTarget s) from rfl,
    parseUrl_of_dashed s tg r hd]
  exact hd

theorem parseClose_sub (s : List Char) (tg : MatchTarget) (r : List Char)
    (h : parseClose .dashedOnly s = some (tg, r)) :
    parseClose .both s = some (tg, r) := by
  cases s with
  | nil => exact absurd h (by simp [parseClose])
  | cons c1 s1 =>
    cases s1 with
    | nil =>
      rw [show parseClose PatMode.dashedOnly [c1] = none from rfl] at h
      exact Option.noConfusion h
    | cons c2 s2 =>
      by_cases h12 : c1 = ']' ∧ c2 = '('
      · obtain ⟨e1, e2⟩ := h12
        subst e1; subst e2
        rw [parseClose_cons2] at h
        rw [parseClose_cons2]
        cases hpt : parseTarget .dashedOnly s2 with
        | none => simp only [hpt] at h; exact Option.noConfusion h
        | some pr =>
          simp only [hpt] at h
          rw [parseTarget_sub s2 pr hpt]
          exact h
      · rw [show parseClose PatMode.dashedOnly (c1 :: c2 :: s2) = none from by
          simp [parseClose, h12]] at h
        exact Option.noConfusion h

theorem hasRegTarget_cons (reg : LinkRegistry) (c : Char) (cs : List Char) :
    hasRegTarget reg (c :: cs) =
      ((match parseClose .both (c :: cs) with
        | some (tg, _) => (lookupL tg.idChars reg).isSome
        | none => false) || hasRegTarget reg cs) := rfl

theorem hasRegTarget_mem (reg : LinkRegistry) :
    ∀ (s s2 : List Char) (tg : MatchTarget) (r : List Char), s2 <:+ s →
      parseClose .both s2 = some (tg, r) → (lookupL tg.idChars reg).isSome = true →
      hasRegTarget reg s = true := by
  intro s
  induction s with
  | nil =>
    intro s2 tg r hsuf hp _
    rw [List.suffix_nil.mp hsuf] at hp
    exact absurd hp (by simp [parseClose])
  | cons c cs ih =>
    intro s2 tg r hsuf hp hl
    rcases List.suffix_cons_iff.mp hsuf with he | hsuf2
    · rw [hasRegTarget_cons, ← he, hp]
      simp [hl]
    · rw [hasRegTarget_cons, ih s2 tg r hsuf2 hp hl, Bool.or_true]

theorem hasRegTarget_suffix_mono (reg : LinkRegistry) :
    ∀ (s s2 : List Char), s2 <:+ s → hasRegTarget reg s2 = true →
      hasRegTarget reg s = true := by
  intro s
  induction s with
  | nil =>
    intro s2 hsuf h2
    rw [List.suffix_nil.mp hsuf] at h2
    exact h2
  | cons c cs ih =>
    intro s2 hsuf h2
    rcases List.suffix_cons_iff.mp hsuf with he | hsuf2
    · rw [← he]; exact h2
    · rw [hasRegTarget_cons, ih s2 hsuf2 h2, Bool.or_true]

theorem replaceMatch_some (reg : LinkRegistry) (t : List Char) (tg : MatchTarget)
    (it : ProcessedItem) (h : lookupL tg.idChars reg = some it) :
    replaceMatch reg t tg = '[' :: t ++ ']' :: '(' :: (it.slug ++ mdSuffix) ++ ')' :: [] := by
  obtain ⟨k, sl⟩ := it
  unfold replaceMatch
  rw [h]
  cases k <;> rfl

theorem replaceMatch_none (reg : LinkRegistry) (t : List Char) (tg : MatchTarget)
    (h : lookupL tg.idChars reg = none) :
    replaceMatch reg t tg = '[' :: t ++ ']' :: '(' :: tg.orig ++ ')' :: [] := by
  unfold replaceMatch
  rw [h]

theorem scanR_link (m : PatMode) (reg : LinkRegistry) (t rest0 : List Char)
    (tg : MatchTarget) (r : List Char)
    (ht : ∀ c ∈ t, c ≠ ']' ∧ c ≠ '\n')
    (hp : parseClose m (']' :: '(' :: rest0) = some (tg, r)) :
    scanR m reg ('[' :: (t ++ ']' :: '(' :: rest0)) =
      replaceMatch reg t tg ++ scanR m reg r := by
  have hft : findText m [] (t ++ ']' :: '(' :: rest0) = some (t, tg, r) := by
    rw [findText_through m t [] (']' :: '(' :: rest0) ht,
      findText_close m (']' :: '(' :: rest0) (t.reverse ++ []) tg r hp]
    simp
  exact scanR_cons_some m reg (t ++ ']' :: '(' :: rest0) t tg r hft

theorem scanR_link_blocked (m : PatMode) (reg : LinkRegistry) (t rest0 : List Char)
    (ht : ∀ c ∈ t, c ≠ ']' ∧ c ≠ '\n')
    (htl : ∀ c ∈ t, c ≠ '[')
    (hrest : ∀ c ∈ rest0, c ≠ ']')
    (hrestl : ∀ c ∈ rest0, c ≠ '[')
    (hp : parseClose m (']' :: '(' :: rest0) = none) :
    scanR m reg ('[' :: (t ++ ']' :: '(' :: rest0)) = '[' :: (t ++ ']' :: '(' :: rest0) := by
  have hft : findText m [] (t ++ ']' :: '(' :: rest0) = none := by
    rw [findText_through m t [] (']' :: '(' :: rest0) ht, findText_step]
    simp only [hp]
    rw [if_neg (show (']' : Char) ≠ '\n' from by decide)]
    exact findText_none_noRB m ('(' :: rest0) (']' :: (t.reverse ++ []))
      (by
        intro c hc
        rcases List.mem_cons.mp hc with h1 | h2
        · rw [h1]; decide
        · exact hrest c h2)
  rw [scanR_cons_none m reg (t ++ ']' :: '(' :: rest0) hft]
  rw [scanR_copy m reg (t ++ ']' :: '(' :: rest0)
    (by
      intro c hc
      rcases List.mem_append.mp hc with h1 | h2
      · exact htl c h1
      · rcases List.mem_cons.mp h2 with h3 | h4
        · rw [h3]; decide
        · rcases List.mem_cons.mp h4 with h5 | h6
          · rw [h5]; decide
          · exact hrestl c h6)]

theorem scanR_id_aux (m : PatMode) (reg : LinkRegistry) :
    ∀ (n : Nat) (s : List Char), s.length ≤ n → hasRegTarget reg s = false →
      scanR m reg s = s := by
  intro n
  induction n with
  | zero =>
    intro s hlen _
    have hs : s = [] := List.length_eq_zero.mp (Nat.le_zero.mp hlen)
    subst hs
    rfl
  | succ k ih =>
    intro s hlen h
    cases s with
    | nil => rfl
    | cons c cs =>
      have hlen2 : cs.length ≤ k := by
        simp only [List.length_cons] at hlen
        omega
      have h2 : hasRegTarget reg cs = false := by
        rw [hasRegTarget_cons] at h
        cases hh : hasRegTarget reg cs with
        | false => rfl
        | true => rw [hh, Bool.or_true] at h; exact Bool.noConfusion h
      by_cases hc : c = '['
      · subst hc
        cases hf : findText m [] cs with
        | none =>
          rw [scanR_cons_none m reg cs hf, ih cs hlen2 h2]
        | some pr =>
          obtain ⟨t, tg, rest⟩ := pr
          rw [scanR_cons_some m reg cs t tg rest hf]
          obtain ⟨s2, hsuf, hpc⟩ := findText_suffix_parseClose m cs [] t tg rest hf
          have hpcb : parseClose .both s2 = some (tg, rest) := by
            cases m with
            | both => exact hpc
            | dashedOnly => exact parseClose_sub s2 tg rest hpc
          have hlook : lookupL tg.idChars reg = none := by
            cases hlk : lookupL tg.idChars reg with
            | none => rfl
            | some it =>
              exfalso
              have hc2 : hasRegTarget reg cs = true :=
                hasRegTarget_mem reg cs s2 tg rest hsuf hpcb (by rw [hlk]; rfl)
              rw [hc2] at h2
              exact Bool.noConfusion h2
          have hr1 : rest <:+ s2 := by
            rw [parseClose_shape .both s2 tg rest hpcb]
            exact ⟨']' :: '(' :: (tg.orig ++ [')']), by simp⟩
          have hrs : rest <:+ cs := hr1.trans hsuf
          have hrest_len : rest.length ≤ k := by
            have := findText_rest_len m cs [] t tg rest hf
            omega
          have hrest_noreg : hasRegTarget reg rest = false := by
            cases hh : hasRegTarget reg rest with
            | false => rfl
            | true =>
              exfalso
              rw [hasRegTarget_suffix_mono reg cs rest hrs hh] at h2
              exact Bool.noConfusion h2
          rw [ih rest hrest_len hrest_noreg]
          have hspan := findText_spanEq m cs [] t tg rest hf
          rw [List.reverse_nil, List.nil_append] at hspan
          rw [replaceMatch_none reg t tg hlook, hspan]
          simp
      · rw [scanR_cons_ne m reg c cs hc, ih cs hlen2 h2]

theorem scanR_id (m : PatMode) (reg : LinkRegistry) (s : List Char)
    (h : hasRegTarget reg s = false) : scanR m reg s = s :=
  scanR_id_aux m reg s.length s (le_refl _) h

theorem noLB_mem (s : List Char) (h : noLB s = true) : ∀ c ∈ s, c ≠ '[' := by
  intro c hc
  have := List.all_eq_true.mp h c hc
  simpa using this

theorem textSafeB_mem (s : List Char) (h : textSafeB s = true) :
    ∀ c ∈ s, c ≠ '[' ∧ c ≠ ']' ∧ c ≠ '\n' := by
  intro c hc
  have := List.all_eq_true.mp h c hc
  simp only [Bool.and_eq_true, bne_iff_ne, ne_eq] at this
  exact ⟨this.1.1, this.1.2, this.2⟩

theorem bracketFreeB_mem (s : List Char) (h : bracketFreeB s = true) :
    ∀ c ∈ s, c ≠ '[' ∧ c ≠ ']' := by
  intro c hc
  have := List.all_eq_true.mp h c hc
  simp only [Bool.and_eq_true, bne_iff_ne, ne_eq] at this
  exact this

theorem lookupL_mem {K V : Type} [DecidableEq K] (k : K) (v : V) :
    ∀ (l : List (K × V)), lookupL k l = some v → (k, v) ∈ l := by
  intro l
  induction l with
  | nil => intro h; exact Option.noConfusion h
  | cons p rest ih =>
    intro h
    obtain ⟨k2, v2⟩ := p
    by_cases he : k2 = k
    · subst he
      rw [show lookupL k2 ((k2, v2) :: rest) = some v2 from by simp [lookupL]] at h
      have hv : v2 = v := Option.some_injective _ h
      subst hv
      exact List.mem_cons_self _ _
    · rw [show lookupL k ((k2, v2) :: rest) = lookupL k rest from by simp [lookupL, he]] at h
      exact List.mem_cons_of_mem _ (ih h)

/-- C6 (amended): running the link rewriter a second time changes nothing
provided the first run's output retains no pattern-recognizable registered
raw target; the unconditional idempotence of the original claim fails on
nested links (see the counterexample). -/
theorem link_rewrite_second_pass_fixed (reg : LinkRegistry) (content : List Char)
    (h : hasRegTarget reg (update_markdown_links reg content) = false) :
    update_markdown_links reg (update_markdown_links reg content) =
      update_markdown_links reg content :=
  calc update_markdown_links reg (update_markdown_links reg content)
      = scanR .dashedOnly reg (scanR .both reg (update_markdown_links reg content)) := rfl
    _ = scanR .dashedOnly reg (update_markdown_links reg content) := by
        rw [scanR_id PatMode.both reg (update_markdown_links reg content) h]
    _ = update_markdown_links reg content :=
        scanR_id PatMode.dashedOnly reg (update_markdown_links reg content) h

theorem link_rewrite_second_pass_fixed_witness :
    hasRegTarget regC6 (update_markdown_links regC6 wC6) = false ∧
      update_markdown_links regC6 (update_markdown_links regC6 wC6) =
        update_markdown_links regC6 wC6 :=
  ⟨by decide, link_rewrite_second_pass_fixed regC6 wC6 (by decide)⟩

/-- C5: on a well-formed Markdown link whose target is a raw Notion
identifier (URL or dashed form), `update_markdown_links` replaces the target
by the registered slug plus `.md` exactly when the hyphen-stripped id is in
`processed_items`, and reproduces the match unchanged otherwise; surrounding
text is copied verbatim.  Hypotheses: the preceding text has no `[`, the
link text has no brackets and no newline, the following text has no
brackets, the raw target is well-formed, and every registered slug consists
of slug characters (lowercase letters, digits, hyphens), as `python-slugify`
emits. -/
theorem link_rewrite_replaces_iff_registered (reg : LinkRegistry) (tf : TargetForm)
    (pre t post : List Char)
    (hpre : noLB pre = true) (ht : textSafeB t = true)
    (hpost : bracketFreeB post = true) (hwf : tf.wf = true)
    (hslug : ∀ p ∈ reg, slugOkB p.2.slug = true) :
    update_markdown_links reg
        (pre ++ '[' :: (t ++ ']' :: '(' :: (tf.render ++ ')' :: post))) =
      pre ++ '[' :: (t ++ ']' :: '(' :: (newTarget reg tf ++ ')' :: post)) := by
  have hpre2 := noLB_mem pre hpre
  have ht3 := textSafeB_mem t ht
  have htRB : ∀ c ∈ t, c ≠ ']' ∧ c ≠ '\n' := fun c hc => ⟨(ht3 c hc).2.1, (ht3 c hc).2.2⟩
  have htL : ∀ c ∈ t, c ≠ '[' := fun c hc => (ht3 c hc).1
  have hpost2 := bracketFreeB_mem post hpost
  have hpostL : ∀ c ∈ post, c ≠ '[' := fun c hc => (hpost2 c hc).1
  have hpostR : ∀ c ∈ post, c ≠ ']' := fun c hc => (hpost2 c hc).2
  have hp1 : parseClose .both (']' :: '(' :: (tf.render ++ ')' :: post)) =
      some (tgOf tf, post) := parseClose_render_both tf post hwf
  have pass1all :
      scanR .both reg (pre ++ '[' :: (t ++ ']' :: '(' :: (tf.render ++ ')' :: post))) =
        pre ++ (replaceMatch reg t (tgOf tf) ++ post) := by
    rw [scanR_append_copy .both reg pre _ hpre2,
      scanR_link .both reg t (tf.render ++ ')' :: post) (tgOf tf) post htRB hp1,
      scanR_copy .both reg post hpostL]
  rw [show update_markdown_links reg
      (pre ++ '[' :: (t ++ ']' :: '(' :: (tf.render ++ ')' :: post))) =
      scanR .dashedOnly reg
        (scanR .both reg (pre ++ '[' :: (t ++ ']' :: '(' :: (tf.render ++ ')' :: post))))
      from rfl, pass1all]
  cases hlk : lookupL tf.strippedId reg with
  | some it =>
    have hsl : slugOkB it.slug = true :=
      hslug (tf.strippedId, it) (lookupL_mem tf.strippedId it reg hlk)
    have hrm : replaceMatch reg t (tgOf tf) =
        '[' :: t ++ ']' :: '(' :: (it.slug ++ mdSuffix) ++ ')' :: [] :=
      replaceMatch_some reg t (tgOf tf) it hlk
    rw [hrm]
    have hshape : pre ++ (('[' :: t ++ ']' :: '(' :: (it.slug ++ mdSuffix) ++ ')' :: []) ++ post) =
        pre ++ '[' :: (t ++ ']' :: '(' :: ((it.slug ++ mdSuffix) ++ ')' :: post)) := by
      simp
    rw [hshape]
    have hr1 : ∀ c ∈ (it.slug ++ mdSuffix) ++ ')' :: post, c ≠ ']' := by
      intro c hc
      rcases List.mem_append.mp hc with h1 | h2
      · rcases List.mem_append.mp h1 with h3 | h4
        · exact (slugChar_ne c (slugOk_mem it.slug hsl c h3)).2.1
        · have hcc : c = '.' ∨ c = 'm' ∨ c = 'd' := by simpa [mdSuffix] using h4
          rcases hcc with rfl | rfl | rfl <;> decide
      · rcases List.mem_cons.mp h2 with h5 | h6
        · rw [h5]; decide
        · exact hpostR c h6
    have hr2 : ∀ c ∈ (it.slug ++ mdSuffix) ++ ')' :: post, c ≠ '[' := by
      intro c hc
      rcases List.mem_append.mp hc with h1 | h2
      · rcases List.mem_append.mp h1 with h3 | h4
        · exact (slugChar_ne c (slugOk_mem it.slug hsl c h3)).2.2.1
        · have hcc : c = '.' ∨ c = 'm' ∨ c = 'd' := by simpa [mdSuffix] using h4
          rcases hcc with rfl | rfl | rfl <;> decide
      · rcases List.mem_cons.mp h2 with h5 | h6
        · rw [h5]; decide
        · exact hpostL c h6
    rw [scanR_append_copy .dashedOnly reg pre _ hpre2,
      scanR_link_blocked .dashedOnly reg t ((it.slug ++ mdSuffix) ++ ')' :: post)
        htRB htL hr1 hr2 (parseClose_slug_block .dashedOnly it.slug post hsl),
      show newTarget reg tf = it.slug ++ mdSuffix from by unfold newTarget; rw [hlk]]
  | none =>
    rw [replaceMatch_none reg t (tgOf tf) hlk]
    have hshape : pre ++ (('[' :: t ++ ']' :: '(' :: (tgOf tf).orig ++ ')' :: []) ++ post) =
        pre ++ '[' :: (t ++ ']' :: '(' :: (tf.render ++ ')' :: post)) := by
      simp [tgOf]
    rw [hshape, scanR_append_copy .dashedOnly reg pre _ hpre2,
      show newTarget reg tf = tf.render from by unfold newTarget; rw [hlk]]
    congr 1
    cases tf with
    | url hex =>
      have hx : allHex hex = true := (wf_url_unpack hex hwf).2
      have hhexmem : ∀ c ∈ hex, isHexDigit c = true := fun c hc => List.all_eq_true.mp hx c hc
      have hpb : parseClose .dashedOnly
          (']' :: '(' :: ((TargetForm.url hex).render ++ ')' :: post)) = none := by
        rw [parseClose_cons2,
          show (TargetForm.url hex).render ++ ')' :: post =
            (TargetForm.url hex).render ++ (')' :: post) from rfl,
          parseTarget_dashedOnly_url_none hex (')' :: post)]
      have hhost : ∀ x ∈ notionHost, x ≠ ']' ∧ x ≠ '[' := by decide
      have hrestR : ∀ c ∈ (TargetForm.url hex).render ++ ')' :: post, c ≠ ']' := by
        intro c hc
        rcases List.mem_append.mp hc with h1 | h2
        · rcases List.mem_append.mp (show c ∈ notionHost ++ hex from h1) with h3 | h4
          · exact (hhost c h3).1
          · exact (hexDigit_ne c (hhexmem c h4)).2.1
        · rcases List.mem_cons.mp h2 with h5 | h6
          · rw [h5]; decide
          · exact hpostR c h6
      have hrestL : ∀ c ∈ (TargetForm.url hex).render ++ ')' :: post, c ≠ '[' := by
        intro c hc
        rcases List.mem_append.mp hc with h1 | h2
        · rcases List.mem_append.mp (show c ∈ notionHost ++ hex from h1) with h3 | h4
          · exact (hhost c h3).2
          · exact (hexDigit_ne c (hhexmem c h4)).1
        · rcases List.mem_cons.mp h2 with h5 | h6
          · rw [h5]; decide
          · exact hpostL c h6
      exact scanR_link_blocked .dashedOnly reg t ((TargetForm.url hex).render ++ ')' :: post)
        htRB htL hrestR hrestL hpb
    | dashed a b c d e =>
      have hpd : parseClose .dashedOnly
          (']' :: '(' :: ((TargetForm.dashed a b c d e).render ++ ')' :: post)) =
          some (tgOf (TargetForm.dashed a b c d e), post) :=
        parseClose_render_dashed a b c d e post hwf
      rw [scanR_link .dashedOnly reg t ((TargetForm.dashed a b c d e).render ++ ')' :: post)
          (tgOf (TargetForm.dashed a b c d e)) post htRB hpd,
        replaceMatch_none reg t (tgOf (TargetForm.dashed a b c d e)) hlk,
        scanR_copy .dashedOnly reg post hpostL]
      simp [tgOf]

theorem link_rewrite_replaces_iff_registered_witness :
    (noLB [] = true ∧ textSafeB ('a' :: []) = true ∧ bracketFreeB [] = true ∧
      dashC5.wf = true ∧ ∀ p ∈ regC5, slugOkB p.2.slug = true) ∧
    update_markdown_links regC5
        ([] ++ '[' :: (('a' :: []) ++ ']' :: '(' :: (dashC5.render ++ ')' :: []))) =
      [] ++ '[' :: (('a' :: []) ++ ']' :: '(' :: (newTarget regC5 dashC5 ++ ')' :: [])) :=
  ⟨⟨by decide, by decide, by decide, by decide, by decide⟩,
    link_rewrite_replaces_iff_registered regC5 dashC5 [] ('a' :: []) [] (by decide)
      (by decide) (by decide) (by decide) (by decide)⟩
end NotionToWiki
